import Mathlib

/-!
Verification of the couple-finance-bot message interpreter (src/app.py).

The Python source is shallowly embedded below.  Strings are manipulated as
`List Char` at the core (Python `str` is a sequence of code points, as is
`String.data` in Lean); `String`-level wrappers keep the source's function
names.  Python `int` is `Nat` (every amount this grammar can produce is
non-negative); the `float` arithmetic inside `parse_amount` — CPython
evaluates `int(float(body) * mult)` in binary64 — is modelled as the exact
finite decimal `mantissa / 10 ^ scale` that the token denotes.  The two
agree exactly whenever the token's value and its scaled product are dyadic
rationals with numerator below `2 ^ 53` (then the correctly-rounded
`float()` parse, the product, and `int()` are all exact); every theorem
below that asserts a numeric value either carries that guard as a
hypothesis (`5 ^ k` divides the fractional digits' value, product below
`2 ^ 53`) or evaluates a concrete token whose binary64 result was checked
to coincide.  Outside the guarded region binary rounding can differ — in
CPython `parse_amount("8,165k")` is `int(8164.99999999999909...) = 8164`,
not the decimal 8165 — and no theorem asserts a value there.  A Python
function that can raise is modelled with `Except Unit`.
-/

/-- Python `str.isdigit` character class (ASCII digits; the tokens the bot
handles are ASCII). -/
def pyIsDigit (c : Char) : Bool := '0' ≤ c && c ≤ '9'

/-- Whitespace characters recognised by Python's `str.strip` / `str.split`. -/
def pyIsWS (c : Char) : Bool :=
  c = ' ' || c = '\t' || c = '\n' || c = '\x0d' || c = '\x0b' || c = '\x0c'

/-- Value of a decimal digit string, as written by Python `int`/`float` on the
integer part: fold left, most significant digit first. -/
def digitsVal (l : List Char) : Nat :=
  l.foldl (fun a c => 10 * a + (c.toNat - 48)) 0

/-- Python `str.strip()` on a code-point list. -/
def pyStrip (l : List Char) : List Char :=
  ((l.dropWhile pyIsWS).reverse.dropWhile pyIsWS).reverse

/-- Python `str.lower()` (ASCII case map; all keyword tables in the source are
already lower case, and the cased inputs in the claims are ASCII). -/
def pyLower (l : List Char) : List Char := l.map Char.toLower

/-- Splits a code-point list at every separator position, keeping empty
pieces: the semantics of Python `str.split(sep)` for a one-character `sep`. -/
def splitWhen (p : Char → Bool) (l : List Char) : List (List Char) :=
  l.foldr
    (fun c acc =>
      if p c then [] :: acc
      else
        match acc with
        | h :: t => (c :: h) :: t
        | [] => [[c]])
    [[]]

/-- Python `str.split(sep)` with a one-character separator. -/
def splitOnChar (sep : Char) (l : List Char) : List (List Char) :=
  splitWhen (fun c => c = sep) l

/-- Python `str.split()` (no argument): split on runs of whitespace, dropping
empty pieces. -/
def pySplitWs (l : List Char) : List (List Char) :=
  (splitWhen pyIsWS l).filter (fun w => w ≠ [])

/-- Python `sep.join(parts)` with a one-character separator. -/
def joinChar (sep : Char) (parts : List (List Char)) : List Char :=
  (parts.intersperse [sep]).flatten

/-- `needle` starts `hay` (Python `str.startswith`). -/
def strStarts (needle hay : List Char) : Bool :=
  hay.take needle.length = needle

/-- `needle` occurs somewhere inside `hay`: Python's `needle in hay` on
strings. -/
def containsSub (needle : List Char) : List Char → Bool
  | [] => needle = []
  | c :: t => strStarts needle (c :: t) || containsSub needle t

/-- Python `str.isdigit()`: non-empty and all digits. -/
def pyIsDigitStr (l : List Char) : Bool :=
  l ≠ [] && l.all pyIsDigit

/-- String-level wrapper helpers. -/
def pySplitWsS (s : String) : List String :=
  (pySplitWs s.data).map (fun l => ⟨l⟩)

def joinWsS (parts : List String) : String :=
  ⟨joinChar ' ' (parts.map String.data)⟩

-- ============== parse_amount (src/app.py lines 476-496) ==============

/-- The regex `^\d+,\d+[mkMK]$` from `parse_amount` ("Vietnamese decimal
notation"), decided by maximal-munch scanning (equivalent to the regex since
the character classes are disjoint and anchored). -/
def vietDecimalMatch (l : List Char) : Bool :=
  let p := l.span pyIsDigit
  p.1 ≠ [] &&
    match p.2 with
    | ',' :: rest =>
      let q := rest.span pyIsDigit
      q.1 ≠ [] && (q.2 = ['m'] || q.2 = ['k'] || q.2 = ['M'] || q.2 = ['K'])
    | _ => false

/-- The regex `^([\d.]+)([mkMK]?)$`: on success returns the numeric body
(group 1) and the optional suffix character (group 2). -/
def amountMatch (l : List Char) : Option (List Char × Option Char) :=
  let p := l.span (fun c => pyIsDigit c || c = '.')
  if p.1 = [] then none
  else
    match p.2 with
    | [] => some (p.1, none)
    | [c] => if c = 'm' || c = 'k' || c = 'M' || c = 'K' then some (p.1, some c) else none
    | _ => none

/-- Python `float()` on a string of digits and dots: defined iff it has at
most one dot and at least one digit (`none` models `ValueError`).  The value
is kept as the exact decimal pair `(mantissa, scale)` denoting
`mantissa / 10 ^ scale`; CPython's `float()` is the binary64
correct rounding of that number, which equals it exactly iff it is a dyadic
rational with numerator below `2 ^ 53` (see the header note — theorems
assert numeric values only under that guard). -/
def floatVal (body : List Char) : Option (ℕ × ℕ) :=
  let p := body.span pyIsDigit
  match p.2 with
  | [] => if p.1 = [] then none else some (digitsVal p.1, 0)
  | '.' :: fp =>
    if fp.all pyIsDigit && (p.1 ≠ [] || fp ≠ []) then
      some (digitsVal (p.1 ++ fp), fp.length)
    else none
  | _ => none

/-- Multiplier applied by `parse_amount` for the matched suffix character
(`match.group(2).upper()` compared against `M` and `K`). -/
def suffixMult (sfx : Option Char) : ℕ :=
  match sfx with
  | some c => if c.toUpper = 'M' then 1000000 else if c.toUpper = 'K' then 1000 else 1
  | none => 1

/-- `int(num * mult)` where `num = mant / 10 ^ scale ≥ 0` by exact decimal
arithmetic: `int()` truncates toward zero, which on non-negative values is
floor, i.e. natural division.  This equals CPython's
`int(float(body) * mult)` whenever `mant * mult / 5 ^ scale` is an exact
natural below `2 ^ 53` (both the parsed float and the product are then
exact); binary rounding can lower the result outside that region
(`8,165k` → 8164 in CPython, 8165 here). -/
def decTrunc (mant scale mult : ℕ) : ℕ := mant * mult / 10 ^ scale

/-- `parse_amount` (lines 476-496).  `.ok none` is Python `None` ("no
match"), `.ok (some n)` a parsed integer (always ≥ 0 under this grammar, so
`ℕ`), `.error ()` an uncaught `ValueError` raised by `float()` (e.g. on a
body with two dots). -/
def parse_amount_chars (l : List Char) : Except Unit (Option ℕ) :=
  let s := pyStrip (l.filter (fun c => c ≠ '₩' && c ≠ ' '))
  let s2 :=
    if vietDecimalMatch s then s.map (fun c => if c = ',' then '.' else c)
    else s.filter (fun c => c ≠ ',')
  match amountMatch s2 with
  | none => .ok none
  | some (body, sfx) =>
    match floatVal body with
    | none => .error ()
    | some ms => .ok (some (decTrunc ms.1 ms.2 (suffixMult sfx)))

def parse_amount (s : String) : Except Unit (Option ℕ) :=
  parse_amount_chars s.data

-- ============== extract_amount_from_text (lines 505-517) ==============

/-- The word loop of `extract_amount_from_text`: `parse_amount` is attempted
on every word (so a later malformed word still raises); the first word whose
parse is *truthy* (`if parsed and amount is None` — note a parsed `0` is
falsy) becomes the amount and is dropped, all other words are kept in
order. -/
def extract_amount_loop (amount : Option ℕ) (remaining : List (List Char)) :
    List (List Char) → Except Unit (Option ℕ × List (List Char))
  | [] => .ok (amount, remaining)
  | w :: ws =>
    match parse_amount_chars w with
    | .error e => .error e
    | .ok parsed =>
      let truthy := match parsed with | some n => n ≠ 0 | none => false
      if truthy && amount.isNone then extract_amount_loop parsed remaining ws
      else extract_amount_loop amount (remaining ++ [w]) ws

/-- `extract_amount_from_text` (lines 505-517): split on whitespace, run the
loop, re-join the remaining words with single spaces. -/
def extract_amount_from_text (text : String) : Except Unit (Option ℕ × String) :=
  match extract_amount_loop none [] (pySplitWs text.data) with
  | .ok (a, rem) => .ok (a, ⟨joinChar ' ' rem⟩)
  | .error e => .error e

-- ============== month parsing (lines 436-443, 519-547) ==============

/-- The `CATEGORIES` taxonomy (lines 88-337), in declaration order (Python
dicts preserve insertion order).  Only the keyword lists are semantically
relevant to classification; the emoji/response decorations are omitted. -/
def CATEGORIES : List (String × List String) := [
  ("Food & Dining", ["eat", "dinner", "lunch", "breakfast", "brunch", "restaurant",
    "coffee", "cafe", "meal", "food", "takeout", "takeaway", "dine", "dining", "drinks",
    "beverage", "beer", "wine", "juice", "smoothie", "dessert", "cake", "pizza", "burger",
    "sushi", "noodles", "soup", "snack", "chicken", "bbq", "ăn", "cơm", "phở", "bún",
    "bánh mì", "cà phê", "cafe", "nhà hàng", "ăn trưa", "ăn tối", "ăn sáng", "quán",
    "gọi đồ ăn", "delivery", "đặt đồ ăn", "ăn vặt", "trà sữa", "kem", "lẩu", "nướng",
    "thịt nướng", "samgyupsal", "chimaek", "gà rán", "gà", "thịt", "cá", "bún bò",
    "bún chả", "bánh cuốn", "chè", "đồ ăn", "mì", "hủ tiếu", "cháo", "xôi", "bánh bao",
    "bánh", "hải sản", "tôm", "cua", "sushi", "kimbap", "đồ uống", "nước ngọt", "bia",
    "rượu", "cocktail", "nhậu", "ăn nhậu", "buffet", "tiệc", "nước ép", "sinh tố", "trà",
    "matcha", "bánh ngọt", "tráng miệng", "ăn chơi", "ăn uống", "đi ăn", "치킨", "커피", "식당",
    "밥"]),
  ("Groceries", ["grocery", "groceries", "market", "supermarket", "mart", "vegetables",
    "fruits", "meat", "fish", "rice", "eggs", "milk", "bread", "snacks", "water", "oil",
    "salt", "sugar", "spices", "frozen", "canned", "produce", "dairy", "bakery", "đi chợ",
    "siêu thị", "thực phẩm", "rau", "thịt", "trứng", "sữa", "gạo", "chợ", "rau củ quả",
    "rau củ", "củ quả", "đường", "muối", "dầu ăn", "nước mắm", "gia vị", "bột", "mì gói",
    "đồ khô", "hoa quả", "trái cây", "cam", "táo", "chuối", "nho", "dưa hấu", "xoài",
    "bánh kẹo", "đồ ăn vặt", "nước uống", "nước lọc", "nước suối", "mua rau", "mua thịt",
    "mua đồ", "đồ gia dụng", "giấy vệ sinh", "xà phòng", "bột giặt", "nước rửa chén",
    "nước rửa bát", "khăn giấy", "tã", "sữa tắm", "dầu gội", "coupang", "쿠팡", "emart",
    "homeplus", "lotte mart", "이마트", "홈플러스", "롯데마트"]),
  ("Transport", ["grab", "taxi", "bus", "subway", "train", "ktx", "parking", "toll",
    "ride", "uber", "lyft", "gas", "petrol", "fuel", "car wash", "maintenance", "repair",
    "ticket", "fare", "transit", "xe", "xe buýt", "tàu điện", "gửi xe", "đỗ xe",
    "phí cầu đường", "xăng", "đổ xăng", "đi lại", "đi xe", "tiền xe", "vé xe", "xe máy",
    "ô tô", "xe hơi", "sửa xe", "rửa xe", "bảo dưỡng", "phí giao thông", "cầu đường",
    "phà", "tàu", "máy bay", "vé tàu", "tiền xăng", "tiền gửi xe", "bãi xe", "phí đỗ xe",
    "택시", "지하철", "kakao taxi", "카카오택시", "버스", "주유"]),
  ("Gift", ["gift", "present", "wedding gift", "birthday", "baby shower", "graduation",
    "christmas", "holiday", "celebration", "party", "surprise", "quà", "tặng", "quà cưới",
    "mừng cưới", "quà sinh nhật", "sinh nhật", "đám cưới", "thôi nôi", "quà tân gia",
    "tặng bạn", "mừng", "quà tặng", "tặng quà", "mừng sinh nhật", "tiệc", "lễ", "quà noel",
    "quà tết", "lì xì", "tiền mừng", "phong bì", "돌잔치", "선물", "축하"]),
  ("Family Support", ["mom", "dad", "parents", "family", "send home", "remittance",
    "support family", "cho mẹ", "cho ba", "biếu", "hỗ trợ gia đình", "gửi về", "gửi tiền",
    "tiền nhà", "bố mẹ", "gia đình", "cho bố", "mẹ", "ba", "bố", "biếu bố mẹ",
    "gửi về nhà", "tiền gửi về", "chu cấp", "nuôi gia đình", "cho ông bà", "ông", "bà",
    "anh chị em"]),
  ("Date", ["date", "dating", "couple", "anniversary", "romantic", "valentine", "love",
    "hẹn hò", "kỷ niệm", "lãng mạn", "đi chơi hai đứa", "tình yêu", "hai đứa", "đi date",
    "ngày kỷ niệm", "valentine", "đi chơi cùng", "với bé", "với anh", "với em"]),
  ("Entertainment", ["movie", "game", "netflix", "concert", "karaoke", "pc bang", "show",
    "music", "festival", "park", "zoo", "museum", "arcade", "bowling", "billiards", "pool",
    "sports", "gym", "fitness", "cinema", "theater", "play", "ticket", "event", "phim",
    "xem phim", "giải trí", "game", "youtube", "spotify", "xem show", "ca nhạc",
    "nhạc hội", "lễ hội", "công viên", "du ngoạn", "chụp ảnh", "studio", "spa", "massage",
    "làm đẹp", "làm nail", "làm tóc", "cắt tóc", "nhuộm tóc", "rạp phim", "rạp chiếu phim",
    "đi chơi", "vui chơi", "thư giãn", "nghỉ ngơi", "노래방", "pc방", "영화", "게임"]),
  ("Shopping", ["buy", "purchase", "clothes", "shoes", "daiso", "olive young", "shop",
    "shopping", "electronics", "phone", "laptop", "headphones", "accessories", "home",
    "kitchen", "decor", "furniture", "online shopping", "amazon", "fashion", "style",
    "wear", "mua", "quần áo", "giày dép", "mỹ phẩm", "skincare", "mua sắm", "đồ", "áo",
    "quần", "đồ dùng", "vật dụng", "đồ gia dụng", "điện tử", "điện thoại", "laptop",
    "máy tính", "tai nghe", "đồ decor", "trang trí", "nội thất", "đồ bếp", "chén bát",
    "xoong nồi", "váy", "đầm", "túi xách", "balo", "ví", "đồng hồ", "trang sức",
    "phụ kiện", "son", "kem dưỡng", "serum", "toner", "sữa rửa mặt", "makeup",
    "trang điểm", "다이소", "올리브영", "쇼핑", "옷"]),
  ("Travel", ["flight", "ticket", "hotel", "travel", "trip", "airbnb", "booking",
    "vacation", "holiday", "tour", "visa", "passport", "luggage", "suitcase", "airport",
    "vé máy bay", "vé", "khách sạn", "du lịch", "về việt nam", "về quê", "bay", "book",
    "đặt phòng", "resort", "nghỉ dưỡng", "đi chơi xa", "nghỉ mát", "biển", "núi",
    "sân bay", "hành lý", "vali", "visa", "hộ chiếu", "tour", "đặt tour", "여행", "비행기", "호텔"]),
  ("Healthcare", ["doctor", "hospital", "medicine", "pharmacy", "clinic", "health",
    "dental", "eye", "glasses", "checkup", "test", "lab", "insurance", "supplements",
    "treatment", "bác sĩ", "thuốc", "bệnh viện", "khám bệnh", "hiệu thuốc", "vitamin",
    "sick", "ốm", "bệnh", "khám", "chữa bệnh", "xét nghiệm", "siêu âm", "nha khoa", "răng",
    "mắt", "kính", "thuốc bổ", "thực phẩm chức năng", "bảo hiểm y tế", "tiêm", "vaccine",
    "nhổ răng", "trám răng", "khám mắt", "thuốc men", "y tế", "sức khỏe", "병원", "약국", "약",
    "의사"]),
  ("Loan & Debt", ["lend", "borrow", "debt", "loan", "repay", "pay back", "lending",
    "owed", "owe", "cho mượn", "mượn", "trả nợ", "vay", "nợ", "trả lại", "cho vay",
    "thiếu", "trả tiền", "mượn tiền", "cho vay tiền", "nợ tiền", "trả nợ tiền", "đòi nợ",
    "thu nợ"]),
  ("Business", ["ads", "contractor", "client", "marketing", "revenue", "business",
    "ad spend", "facebook ads", "campaign", "google ads", "tiktok ads", "advertising",
    "promotion", "quảng cáo", "cộng tác viên", "khách hàng", "doanh thu", "công việc",
    "kinh doanh", "chi phí quảng cáo", "chạy ads", "thuê người", "nhân viên",
    "lương nhân viên", "chị dương", "chi duong", "dương", "duong", "gởi jacob",
    "goi jacob", "tiền jacob", "tien jacob", "jacob fee"]),
  ("Subscription", ["subscription", "monthly", "netflix", "spotify", "claude", "chatgpt",
    "premium", "membership", "annual", "yearly", "plan", "tier", "đăng ký", "gói tháng",
    "youtube premium", "disney", "apple", "gói năm", "thuê bao", "phí hàng tháng",
    "gia hạn", "renew"]),
  ("Housing", ["rent", "deposit", "maintenance", "apartment", "house", "utilities",
    "electric", "water bill", "gas bill", "internet bill", "wifi", "tiền nhà", "thuê nhà",
    "đặt cọc", "bảo trì", "nhà", "phòng", "tiền điện", "tiền nước", "tiền gas",
    "tiền mạng", "tiền wifi", "phí chung cư", "phí quản lý", "관리비", "월세", "전세", "집세"]),
  ("Education", ["course", "class", "book", "study", "korean class", "learn", "school",
    "tuition", "university", "college", "training", "workshop", "seminar", "certificate",
    "học", "khóa học", "lớp", "sách", "học tiếng hàn", "tiếng hàn", "học phí", "trường",
    "đại học", "cao đẳng", "đào tạo", "workshop", "hội thảo", "chứng chỉ", "thi", "ôn thi",
    "한국어", "학원", "수업"]),
  ("Pet", ["pet", "cat", "dog", "vet", "pet food", "pet supplies", "grooming", "puppy",
    "kitten", "mèo", "chó", "thú cưng", "thú y", "đồ cho mèo", "đồ cho chó",
    "thức ăn cho mèo", "thức ăn cho chó", "cát vệ sinh", "lồng", "dây xích", "vòng cổ",
    "đồ chơi cho pet"]),
  ("Income", ["salary", "commission", "bonus", "income", "revenue", "wage", "pay",
    "paycheck", "earnings", "profit", "dividend", "interest", "refund", "cashback",
    "lương", "hoa hồng", "thưởng", "thu nhập", "tiền lương", "tiền công", "tiền thưởng",
    "lãi", "hoàn tiền", "nhận tiền", "được trả", "tiền về"])
]

/-- `INCOME_KEYWORDS_EXACT` (lines 429-430). -/
def INCOME_KEYWORDS_EXACT : List String :=
  ["salary", "commission", "bonus", "income", "revenue", "wage", "pay", "lương", "hoa hồng", "thưởng", "thu nhập", "tiền lương", "fee"]

/-- `LOAN_KEYWORDS` (line 433). -/
def LOAN_KEYWORDS : List String :=
  ["cho mượn", "mượn", "cho vay", "vay", "nợ", "thiếu", "lend", "borrow", "loan", "debt", "owed"]

/-- `REPAY_KEYWORDS` (line 434). -/
def REPAY_KEYWORDS : List String :=
  ["trả nợ", "trả lại", "repay", "pay back", "paid back", "trả tiền", "nhận lại"]

/-- `MONTH_NAMES` (lines 436-443), an association list in declaration order
(keys are distinct, so `List.lookup` agrees with the Python dict). -/
def MONTH_NAMES : List (String × ℕ) :=
  [("jan", 1), ("january", 1), ("feb", 2), ("february", 2), ("mar", 3), ("march", 3),
   ("apr", 4), ("april", 4), ("may", 5), ("jun", 6), ("june", 6), ("jul", 7),
   ("july", 7), ("aug", 8), ("august", 8), ("sep", 9), ("sept", 9), ("september", 9),
   ("oct", 10), ("october", 10), ("nov", 11), ("november", 11), ("dec", 12),
   ("december", 12), ("thg1", 1), ("thg2", 2), ("thg3", 3), ("thg4", 4), ("thg5", 5),
   ("thg6", 6), ("thg7", 7), ("thg8", 8), ("thg9", 9), ("thg10", 10), ("thg11", 11),
   ("thg12", 12)]

/-- The regex `^(\d{4})-(\d{1,2})$` of `parse_month`: exactly four digits,
a dash, then one or two digits. -/
def yyyymmMatch (l : List Char) : Option (ℤ × ℕ) :=
  let p := l.span pyIsDigit
  if p.1.length = 4 then
    match p.2 with
    | '-' :: rest =>
      let q := rest.span pyIsDigit
      if (q.1.length = 1 || q.1.length = 2) && q.2 = [] then
        some ((digitsVal p.1 : ℤ), digitsVal q.1)
      else none
    | _ => none
  else none

/-- `parse_month` (lines 519-532).  `now` is the pair
(`datetime.now().year`, `datetime.now().month`); the year is `ℤ` so that the
previous-year rule needs no truncated subtraction.  A bare month name `m`
resolves to the current year when `m ≤ now.month`, else to the previous
year. -/
def parse_month (s : String) (now : ℤ × ℕ) : Option (ℤ × ℕ) :=
  let t : List Char := pyStrip (pyLower s.data)
  match yyyymmMatch t with
  | some ym => some ym
  | none =>
    match MONTH_NAMES.lookup (⟨t⟩ : String) with
    | some m => some ((if m ≤ now.2 then now.1 else now.1 - 1), m)
    | none => none

/-- The token scan of `extract_month_from_text`: the first token for which
`parse_month` succeeds is consumed (the source lower-cases the word before
the call, which is redundant because `parse_month` lower-cases again), the
other tokens stay in order. -/
def extract_month_tokens (now : ℤ × ℕ) : List (List Char) → Option (List (List Char) × ℤ × ℕ)
  | [] => none
  | w :: ws =>
    match parse_month ⟨w⟩ now with
    | some (y, m) => some (ws, y, m)
    | none =>
      match extract_month_tokens now ws with
      | some (ws2, y, m) => some (w :: ws2, y, m)
      | none => none

/-- `extract_month_from_text` (lines 534-547): returns
(cleaned text, year, month, is_backdated); with no month token the original
text and the current (year, month) come back with `is_backdated = false`. -/
def extract_month_from_text (text : String) (now : ℤ × ℕ) : String × ℤ × ℕ × Bool :=
  match extract_month_tokens now (pySplitWs text.data) with
  | some (ws, y, m) =>
    (⟨joinChar ' ' ws⟩, y, m, !(decide (y = now.1) && decide (m = now.2)))
  | none => (text, now.1, now.2, false)

-- ============== extract_person_from_text (lines 549-560) ==============

/-- Python `str.capitalize()`: upper-case the first character, lower-case the
rest. -/
def pyCapitalize (l : List Char) : List Char :=
  match l with
  | [] => []
  | c :: t => Char.toUpper c :: t.map Char.toLower

/-- The word loop of `extract_person_from_text`: the *last* token equal to a
household-member name wins and every such token is removed. -/
def extract_person_loop (person : Option String) (remaining : List (List Char)) :
    List (List Char) → Option String × List (List Char)
  | [] => (person, remaining)
  | w :: ws =>
    if w = "jacob".data || w = "naomi".data || w = "joint".data then
      extract_person_loop (some ⟨pyCapitalize w⟩) remaining ws
    else extract_person_loop person (remaining ++ [w]) ws

/-- `extract_person_from_text` (lines 549-560); the whole text is lower-cased
before splitting. -/
def extract_person_from_text (text : String) : Option String × String :=
  let r := extract_person_loop none [] (pySplitWs (pyLower text.data))
  (r.1, ⟨joinChar ' ' r.2⟩)

-- ============== classifiers (lines 562-601) ==============

/-- The iteration of `detect_category` over the taxonomy: first category one
of whose keywords occurs as a substring wins, otherwise `"Other"`. -/
def detectCategoryGo (tl : List Char) : List (String × List String) → String
  | [] => "Other"
  | (c, kws) :: rest =>
    if kws.any (fun k => containsSub k.data tl) then c else detectCategoryGo tl rest

/-- `detect_category` (lines 562-570); only the winning category name is
modelled (the emoji/response payload does not influence any claim). -/
def detect_category (text : String) : String :=
  detectCategoryGo (pyLower text.data) CATEGORIES

/-- Character class of Python's Unicode `\w` as used by
`re.findall(r'\b\w+\b', ...)`: modelled as ASCII alphanumerics,
underscore, or any non-ASCII code point.  This is exact for every string
built from the source's keyword alphabets (Vietnamese letters are non-ASCII
code points and are word characters in Python). -/
def pyIsWordChar (c : Char) : Bool := c.isAlphanum || c = '_' || decide (128 ≤ c.toNat)

/-- `re.findall(r'\b\w+\b', s)`: the maximal runs of word characters. -/
def reWords (l : List Char) : List (List Char) :=
  (splitWhen (fun c => !pyIsWordChar c) l).filter (fun w => w ≠ [])

/-- `is_income` (lines 572-585): the `Income` category is income; otherwise
some regex word of the lower-cased description must equal an entry of
`INCOME_KEYWORDS_EXACT` (multi-word entries can never equal a single word). -/
def is_income (text : String) (category : String) : Bool :=
  let words := reWords (pyLower text.data)
  if category = "Income" then true
  else INCOME_KEYWORDS_EXACT.any (fun k => words.any (fun w => w = k.data))

/-- `is_loan_transaction` (lines 587-593): substring match. -/
def is_loan_transaction (text : String) : Bool :=
  LOAN_KEYWORDS.any (fun k => containsSub k.data (pyLower text.data))

/-- `is_repayment` (lines 595-601): substring match. -/
def is_repayment (text : String) : Bool :=
  REPAY_KEYWORDS.any (fun k => containsSub k.data (pyLower text.data))

/-- The category chosen by `parse_transaction` (lines 926-940) for a
description, given the fixed-bill lookup result (`some category` when
`find_fixed_bill` matched — an external-store lookup, passed as a
parameter): bill category, else `Loan & Debt` for loan phrasing, else
`detect_category`. -/
def category_of_description (description : String) (fixed_bill : Option String) : String :=
  match fixed_bill with
  | some c => c
  | none =>
    if is_loan_transaction description then "Loan & Debt"
    else detect_category description

/-- Lines 942-947 of `parse_transaction`: income/expense resolution followed
by the repayment override.  Returns (`type`, final `category`). -/
def resolve_type_category (description : String) (category : String) : String × String :=
  let tx_is_income := is_income description category
  if is_repayment description then ("Income", "Loan & Debt")
  else ((if tx_is_income then "Income" else "Expense"), category)

-- ============== delete targets (lines 1209-1230) ==============

/-- Descending insertion sort on naturals; on a duplicate-free list this is
exactly Python's `sorted(set(...), reverse=True)`. -/
def insertDescNat (x : ℕ) : List ℕ → List ℕ
  | [] => [x]
  | y :: t => if y < x then x :: y :: t else y :: insertDescNat x t

def sortDescNat (l : List ℕ) : List ℕ := l.foldr insertDescNat []

/-- The result of `parse_delete_targets`: the Python function returns either
the heterogeneous list `['last']` / `['last', n]` or a (descending, distinct)
list of integers. -/
inductive DelTargets
  | last (n : Option ℕ)
  | nums (l : List ℕ)
deriving DecidableEq

/-- Handling of one comma-separated piece of the target string
(lines 1220-1228): a dash range `a-b` contributes `range(a, b+1)`, a digit
string contributes itself, anything else contributes nothing. -/
def partTargets (part : List Char) : List ℕ :=
  if containsSub ['-'] part && !strStarts ['-'] part then
    match splitOnChar '-' part with
    | [a, b] =>
      if pyIsDigitStr a && pyIsDigitStr b then
        List.range' (digitsVal a) (digitsVal b + 1 - digitsVal a)
      else []
    | _ => []
  else if pyIsDigitStr part then [digitsVal part]
  else []

/-- `parse_delete_targets` (lines 1209-1230). -/
def parse_delete_targets (target_str : String) : DelTargets :=
  let t := target_str.data
  if strStarts "last".data t then
    match (pySplitWs t).get? 1 with
    | some p => if pyIsDigitStr p then .last (some (digitsVal p)) else .last none
    | none => .last none
  else
    let parts := splitOnChar ',' (t.filter (fun c => c ≠ ' '))
    .nums (sortDescNat (parts.foldl (fun acc part => acc ++ partTargets part) []).dedup)

-- ============== the ledger sheet and delete/undo (lines 1232-1291) ==============

/-- A persisted ledger row: its cell strings, in the fixed column order
date, type, category, amount, description, person, month_start, source.
`sheet` is the full grid including the header row; `sheet.row_values(i)` and
`sheet.delete_rows(i)` use 1-based positions. -/
abbrev Row := List String

/-- A cached list entry as used by the delete machinery: of the transaction
dict built by `get_all_transactions`, only `row_index` (read, written and
compared) and `date` (the `delete last` sort key) are semantically relevant
to deletion and undo; the remaining fields only decorate reply strings. -/
structure CTx where
  row_index : ℕ
  date : String
deriving DecidableEq

/-- The row types `get_all_transactions` (lines 1095-1117) keeps. -/
def TX_TYPES : List String := ["Income", "Expense", "Fund Add", "Fund Balance"]

/-- `get_all_transactions` (lines 1095-1117): data rows (positions 2..) whose
Type cell (column 2) is a transaction type, with their 1-based grid
position.  Column layout is the fixed one above (`get_all_records` keys the
cells by the header row). -/
def get_all_transactions (sheet : List Row) : List CTx :=
  (sheet.drop 1).enum.filterMap (fun p =>
    if (p.2.getD 1 "") ∈ TX_TYPES then some ⟨p.1 + 2, p.2.getD 0 ""⟩ else none)

/-- Stable descending insertion by date: Python
`sorted(transactions, key=lambda x: x['date'], reverse=True)`. -/
def insertByDateDesc (x : CTx) : List CTx → List CTx
  | [] => [x]
  | y :: t => if decide (y.date < x.date) then x :: y :: t else y :: insertByDateDesc x t

def sortByDateDesc (l : List CTx) : List CTx :=
  l.foldl (fun acc x => insertByDateDesc x acc) []

/-- The deletion loop of `delete_transactions` (lines 1259-1271), one target
index at a time (targets already sorted descending): capture
`row_values(row_index)`, delete that row, then decrement every cached entry
whose `row_index` is greater.  The final `Bool` is `false` when a row access
is out of range (gspread raises, landing in the `except` branch of the
source); the sheet and cache mutations made so far persist. -/
def delete_loop (sheet : List Row) (cache : List CTx) (items : List CTx) (rows : List Row) :
    List ℕ → List Row × List CTx × List CTx × List Row × Bool
  | [] => (sheet, cache, items, rows, true)
  | idx :: rest =>
    match cache.get? (idx - 1) with
    | none => (sheet, cache, items, rows, false)
    | some tx =>
      match sheet.get? (tx.row_index - 1) with
      | none => (sheet, cache, items, rows, false)
      | some row =>
        delete_loop (sheet.eraseIdx (tx.row_index - 1))
          (cache.map (fun c => if tx.row_index < c.row_index then ⟨c.row_index - 1, c.date⟩ else c))
          (items ++ [tx]) (rows ++ [row]) rest

/-- The Python `delete_transactions` returns tuples of *different arity*: the
pre-check failures return 3-tuples, the success and exception paths return
4-tuples.  The caller unpacks four names, so a `tup3` result raises
`ValueError` at the call site (see `handle_delete`). -/
inductive DelRet
  | tup3 (ok : Bool) (msg : String) (items : List CTx)
  | tup4 (ok : Bool) (msg : String) (items : List CTx) (rows : List Row)
deriving DecidableEq

/-- The body of `delete_transactions` (lines 1245-1276) after the `last`
expansion: cached-list check, 1-based range pre-check, then the deletion
loop on the targets sorted descending.  Returns the resulting sheet, the
resulting cached list (the source mutates it in place) and the Python return
value. -/
def delete_core (ts : List ℕ) (cacheOpt : Option (List CTx)) (sheet : List Row) :
    List Row × Option (List CTx) × DelRet :=
  match cacheOpt with
  | none => (sheet, none, .tup3 false "Use list first to see transactions" [])
  | some cache =>
    if ts.any (fun idx => idx < 1 || cache.length < idx) then
      (sheet, some cache, .tup3 false "Invalid number" [])
    else
      match delete_loop sheet cache [] [] (sortDescNat ts) with
      | (sheet2, cache2, items, rows, true) =>
        (sheet2, some cache2, .tup4 true "Deleted successfully" items rows)
      | (sheet2, cache2, _, _, false) => (sheet2, some cache2, .tup4 false "error" [] [])

/-- `delete_transactions` (lines 1232-1276).  For `delete last [n]` the
cached list is replaced by the sheet's transactions sorted by date
descending and the targets become `1..min(n, len)`. -/
def delete_transactions (targets : DelTargets) (cacheOpt : Option (List CTx)) (sheet : List Row) :
    List Row × Option (List CTx) × DelRet :=
  match targets with
  | .last n =>
    let sorted_tx := sortByDateDesc (get_all_transactions sheet)
    let ts := (List.range (min (n.getD 1) sorted_tx.length)).map (fun i => i + 1)
    delete_core ts (some sorted_tx) sheet
  | .nums ts => delete_core ts cacheOpt sheet

/-- `undo_delete` (lines 1278-1291): append every captured row payload back
to the sheet, in capture order. -/
def undo_delete (rows : List Row) (sheet : List Row) : List Row :=
  rows.foldl (fun s r => s ++ [r]) sheet

-- ============== the delete command handler (lines 1899-1930) ==============

/-- Python `str.replace(pat, '')` (remove every occurrence), by fuel on the
list length. -/
def removeAllGo (pat : List Char) : ℕ → List Char → List Char
  | 0, l => l
  | _, [] => []
  | fuel + 1, c :: t =>
    if pat ≠ [] && strStarts pat (c :: t) then removeAllGo pat fuel ((c :: t).drop pat.length)
    else c :: removeAllGo pat fuel t

def removeAll (pat l : List Char) : List Char := removeAllGo pat l.length l

/-- The `delete` branch of `slack_events` (lines 1899-1930): strip the word
`delete`, parse targets, call `delete_transactions` and unpack **four**
values from it.  A `tup3` return (missing cache, out-of-range target, store
failure) therefore raises `ValueError` (`.error ()`), escaping the handler;
reply strings for the surviving paths are abbreviated since no claim reads
them. -/
def handle_delete (text : String) (cacheOpt : Option (List CTx)) (sheet : List Row) :
    Except Unit (String × List Row × Option (List CTx)) :=
  let target_str : List Char := pyStrip (removeAll "delete".data (pyLower text.data))
  if target_str = [] then .ok ("usage", sheet, cacheOpt)
  else
    match parse_delete_targets ⟨target_str⟩ with
    | .nums [] => .ok ("invalid format", sheet, cacheOpt)
    | targets =>
      match delete_transactions targets cacheOpt sheet with
      | (sheet2, cache2, .tup4 ok _ _ _) =>
        .ok ((if ok then "deleted" else "delete error"), sheet2, cache2)
      | (_, _, .tup3 _ _ _) => .error ()

-- ============== paid / edit target acceptance (lines 1847-1853, 1933-1947) ==============

/-- The target acceptance of the `paid` branch (lines 1847-1853): the reply
is usage help unless the second whitespace token exists and `isdigit()`;
otherwise the 0-based loan index `int(parts[1]) - 1` is used. -/
def paid_target (text : String) : Option ℤ :=
  match (pySplitWs (pyLower text.data)).get? 1 with
  | some p => if pyIsDigitStr p then some ((digitsVal p : ℤ) - 1) else none
  | none => none

/-- The target acceptance of the `edit` branch (lines 1933-1947): needs at
least three whitespace tokens, the second all digits; yields the 0-based
index and the raw amount token. -/
def edit_target (text : String) : Option (ℤ × String) :=
  let words := pySplitWs text.data
  if words.length < 3 then none
  else
    match words.get? 1, words.get? 2 with
    | some target, some amt =>
      if pyIsDigitStr target then some ((digitsVal target : ℤ) - 1, ⟨amt⟩) else none
    | _, _ => none

-- ============== duplicate event filter (lines 34-51) ==============

/-- `is_duplicate_event` (lines 37-51).  `processed_events` is a Python
`set`, which does not retain insertion order; the model keeps the state as
the list of its elements in insertion order and takes the *enumeration
function* `enum` (the order `list(processed_events)` happens to produce) as
a parameter — any permutation of the set is a possible CPython behaviour.
An empty identifier models a falsy `event_id` (never recorded).  On
overflow (more than 100 elements) the source keeps
`list(processed_events)[-50:]`, i.e. the last 50 elements of the
enumeration. -/
def is_duplicate_event (enum : List String → List String) (state : List String) (eid : String) :
    Bool × List String :=
  if eid = "" then (false, state)
  else if eid ∈ state then (true, state)
  else
    let st := state ++ [eid]
    if 100 < st.length then (false, (enum st).drop ((enum st).length - 50))
    else (false, st)

/-- A sequence of webhook deliveries through the filter: for each identifier
the flag says whether the delivery is *processed* (i.e. reaches the handler
and may mutate the ledger) — `true` exactly when `is_duplicate_event`
returned `False`. -/
def dup_filter_run (enum : List String → List String) (state : List String) :
    List String → List Bool × List String
  | [] => ([], state)
  | e :: es =>
    let r := is_duplicate_event enum state e
    let rest := dup_filter_run enum r.2 es
    ((!r.1) :: rest.1, rest.2)

-- ============== undo kinds (lines 57-63, 1376-1446) ==============

/-- Every call site of `store_undo_action` in the source, as
(command, recorded kind) pairs: line 1700 (`fund` calculator), line 1793
(`fund apply`), line 1858 (`paid`), line 1917 (`delete`), line 1963
(`edit`), line 2194 (`update fund`), line 2233 (free-text transaction
add). -/
def STORE_UNDO_KINDS : List (String × String) :=
  [("fund", "fund_calc"), ("fund apply", "fund_apply"), ("paid", "paid"),
   ("delete", "delete"), ("edit", "edit"), ("update fund", "fund_update"),
   ("transaction", "add")]

/-- The dispatch chain of `perform_undo` (lines 1386-1446): the reversal
routine run for each recorded action type; `none` is the final
`"Unknown action type"` branch (line 1446). -/
def perform_undo_dispatch (action_type : String) : Option String :=
  if action_type = "delete" then some "undo_delete"
  else if action_type = "add" then some "delete_row_by_index"
  else if action_type = "edit" then some "undo_edit"
  else if action_type = "paid" then some "undo_paid"
  else if action_type = "fund_update" then some "fund_update reversal"
  else if action_type = "fund_apply" then some "fund_apply reversal"
  else none

/-- The kind set named by the specification's UndoAction data model. -/
def CLAIMED_UNDO_KINDS : List String :=
  ["add", "delete", "edit", "paid", "fund_update", "fund_apply"]

-- ============== parse_transaction (lines 900-960) ==============

/-- `business_person_keywords` (lines 906-907). -/
def business_person_keywords : List String :=
  ["gởi jacob", "goi jacob", "tiền jacob", "tien jacob", "jacob fee", "fee jacob",
   "chị dương", "chi duong", "tiền dương", "tien duong"]

/-- The transaction record built by `parse_transaction`, restricted to the
fields the claims talk about (the `category_data`/`fixed_bill`/`is_loan`
decorations only feed reply strings). -/
structure Tx where
  person : String
  amount : ℕ
  description : String
  category : String
  type : String
  year : ℤ
  month : ℕ
  is_backdated : Bool
deriving DecidableEq

/-- `parse_transaction` (lines 900-960).  The external fixed-bill lookup
(`find_fixed_bill`, which reads the Fixed Bills sheet) is a parameter
mapping the candidate description to `some (bill category, bill person)`;
`fun _ => none` models an empty/unavailable bill store.  `.ok none` is the
"not a transaction" result; `.error ()` an exception escaping from the
amount scan. -/
def parse_transaction (text user_name : String) (now : ℤ × ℕ)
    (fixed_bill : String → Option (String × String)) : Except Unit (Option Tx) :=
  let original_text : List Char := pyStrip text.data
  let m := extract_month_from_text ⟨original_text⟩ now
  let is_business :=
    business_person_keywords.any (fun k => containsSub k.data (pyLower m.1.data))
  let pr : Option String × String :=
    if is_business then (some user_name, m.1) else extract_person_from_text m.1
  let person0 := pr.1.getD user_name
  match extract_amount_from_text pr.2 with
  | .error e => .error e
  | .ok (none, _) => .ok none
  | .ok (some amount, description0) =>
    let d1 := pyStrip description0.data
    let description : String := if d1 = [] then "Transaction" else ⟨d1⟩
    let fb := fixed_bill description
    let category := category_of_description description (fb.map (fun cp => cp.1))
    let person :=
      match fb with
      | some cp => if cp.2 ≠ "Both" then cp.2 else "Joint"
      | none => person0
    let tc := resolve_type_category description category
    .ok (some ⟨person, amount, description, tc.2, tc.1, m.2.1, m.2.2.1, m.2.2.2⟩)

-- ============== spec-modelled comparison definitions ==============

/-- Modelled from the spec (claim C1's locale rule, which is missing from
`src/` only in the sense that it differs from the code): the comma is a
decimal point only when it is immediately followed by *exactly one* digit
and then the suffix. -/
def vietDecimalMatchSpecC1 (l : List Char) : Bool :=
  let p := l.span pyIsDigit
  p.1 ≠ [] &&
    match p.2 with
    | [',', d, sfx] => pyIsDigit d && (sfx = 'm' || sfx = 'k' || sfx = 'M' || sfx = 'K')
    | _ => false

/-- Modelled from the spec: `parse_amount` as claim C1 states it — identical
pipeline but with the exactly-one-digit decimal-comma rule. -/
def parse_amount_specC1 (s : String) : Option ℕ :=
  let t := pyStrip (s.data.filter (fun c => c ≠ '₩' && c ≠ ' '))
  let s2 :=
    if vietDecimalMatchSpecC1 t then t.map (fun c => if c = ',' then '.' else c)
    else t.filter (fun c => c ≠ ',')
  match amountMatch s2 with
  | none => none
  | some (body, sfx) =>
    match floatVal body with
    | none => none
    | some ms => some (decTrunc ms.1 ms.2 (suffixMult sfx))

/-- Modelled from the spec (claim C4): the `M/YYYY` month-token form the
claim says the extractor consumes (one or two digits, a slash, four
digits). -/
def mSlashYyyyMatch (l : List Char) : Bool :=
  let p := l.span pyIsDigit
  (p.1.length = 1 || p.1.length = 2) &&
    match p.2 with
    | '/' :: rest => rest.length = 4 && rest.all pyIsDigit
    | _ => false

/-- Modelled from the spec (claim C5): income detection by *whitespace
delimited* words of the description. -/
def is_income_specC5 (text category : String) : Bool :=
  decide (category = "Income") ||
    INCOME_KEYWORDS_EXACT.any (fun k => (pySplitWs (pyLower text.data)).any (fun w => w = k.data))

/-- Modelled from the spec (claim C5): type/category resolution with the
whitespace-word income test. -/
def resolve_type_category_specC5 (description category : String) : String × String :=
  if is_repayment description then ("Income", "Loan & Debt")
  else ((if is_income_specC5 description category then "Income" else "Expense"), category)

/-- The amended C5 income test: the words are the regex `\b\w+\b` tokens
(maximal word-character runs), exactly as `is_income` computes them. -/
def is_income_wordsC5 (text category : String) : Bool :=
  decide (category = "Income") ||
    INCOME_KEYWORDS_EXACT.any (fun k => (reWords (pyLower text.data)).any (fun w => w = k.data))

/-- The amended C5 resolution: repayment override, else income iff the
category is `Income` or some regex word is an income keyword. -/
def resolve_type_category_amendC5 (description category : String) : String × String :=
  if is_repayment description then ("Income", "Loan & Debt")
  else ((if is_income_wordsC5 description category then "Income" else "Expense"), category)

-- ============== C7 target-grammar syntax ==============

/-- One comma-joined piece of the delete-target grammar: a bare integer or
an inclusive dash range, abstracted by their digit strings. -/
inductive TPart
  | num (d : List Char)
  | rng (a b : List Char)

/-- The concrete text of a piece. -/
def TPart.render : TPart → List Char
  | .num d => d
  | .rng a b => a ++ '-' :: b

/-- Well-formedness: the digit strings are non-empty digit runs. -/
def TPart.wf : TPart → Prop
  | .num d => pyIsDigitStr d = true
  | .rng a b => pyIsDigitStr a = true ∧ pyIsDigitStr b = true

/-- The targets a piece denotes: `range(a, b+1)` for a range (empty when
`b < a`), the integer itself for a bare integer. -/
def TPart.sem : TPart → List ℕ
  | .num d => [digitsVal d]
  | .rng a b => List.range' (digitsVal a) (digitsVal b + 1 - digitsVal a)

-- ============== concrete fixtures for witnesses ==============

/-- An 11-row demo grid: a header plus ten expense rows dated 0..9. -/
def demoSheet : List Row :=
  [["hdr"]] ++ (List.range 10).map (fun i => [toString i, "Expense"])

/-- The cached list for `demoSheet` as `list`/`get_all_transactions` would
build it: row indices 2..11. -/
def demoCache : List CTx := (List.range 10).map (fun i => ⟨i + 2, toString i⟩)

/-- 101 distinct webhook identifiers "0".."100". -/
def demoEventIds : List String := (List.range 101).map (fun i => toString i)

-- ============== helper lemmas ==============

theorem splitWhen_nil (p : Char → Bool) : splitWhen p [] = [[]] := rfl

theorem splitWhen_cons (p : Char → Bool) (c : Char) (t : List Char) :
    splitWhen p (c :: t) =
      if p c then [] :: splitWhen p t
      else
        match splitWhen p t with
        | h :: t2 => (c :: h) :: t2
        | [] => [[c]] := rfl

theorem splitWhen_ne_nil (p : Char → Bool) (l : List Char) : splitWhen p l ≠ [] := by
  induction l with
  | nil => simp [splitWhen_nil]
  | cons c t ih =>
    rw [splitWhen_cons]
    by_cases h : p c
    · simp [h]
    · simp only [h, if_neg]
      cases hs : splitWhen p t with
      | nil => exact absurd hs ih
      | cons a b => simp

theorem splitWhen_all_not (p : Char → Bool) (l : List Char) (h : ∀ c ∈ l, p c = false) :
    splitWhen p l = [l] := by
  induction l with
  | nil => rfl
  | cons c t ih =>
    rw [splitWhen_cons, h c (by simp), ih (fun x hx => h x (by simp [hx]))]
    simp

theorem splitWhen_append_sep (p : Char → Bool) (a : List Char) (c : Char) (r : List Char)
    (ha : ∀ x ∈ a, p x = false) (hc : p c = true) :
    splitWhen p (a ++ c :: r) = a :: splitWhen p r := by
  induction a with
  | nil => simp [splitWhen_cons, hc]
  | cons x t ih =>
    rw [List.cons_append, splitWhen_cons, ha x (by simp),
      ih (fun y hy => ha y (by simp [hy]))]
    simp

theorem joinChar_singleton (sep : Char) (x : List Char) : joinChar sep [x] = x := by
  simp [joinChar]

theorem joinChar_cons_cons (sep : Char) (x y : List Char) (t : List (List Char)) :
    joinChar sep (x :: y :: t) = x ++ sep :: joinChar sep (y :: t) := rfl

theorem splitOnChar_joinChar (sep : Char) (ps : List (List Char)) (hne : ps ≠ [])
    (h : ∀ q ∈ ps, ∀ c ∈ q, c ≠ sep) :
    splitOnChar sep (joinChar sep ps) = ps := by
  induction ps with
  | nil => exact absurd rfl hne
  | cons x t ih =>
    cases t with
    | nil =>
      rw [joinChar_singleton]
      exact splitWhen_all_not _ _ (fun c hc => by
        simp [h x (by simp) c hc])
    | cons y t2 =>
      rw [joinChar_cons_cons, splitOnChar, splitWhen_append_sep _ _ _ _
        (fun c hc => by simp [h x (by simp) c hc]) (by simp)]
      rw [show splitWhen (fun c => decide (c = sep)) (joinChar sep (y :: t2)) =
        splitOnChar sep (joinChar sep (y :: t2)) from rfl]
      rw [ih (by simp) (fun q hq c hc => h q (by simp [hq]) c hc)]

theorem takeWhile_append_all (p : Char → Bool) (a b : List Char) (h : ∀ c ∈ a, p c = true) :
    (a ++ b).takeWhile p = a ++ b.takeWhile p := by
  induction a with
  | nil => rfl
  | cons c t ih =>
    rw [List.cons_append, List.takeWhile_cons, h c (by simp),
      ih (fun x hx => h x (by simp [hx]))]
    rfl

theorem dropWhile_append_all (p : Char → Bool) (a b : List Char) (h : ∀ c ∈ a, p c = true) :
    (a ++ b).dropWhile p = b.dropWhile p := by
  induction a with
  | nil => rfl
  | cons c t ih =>
    rw [List.cons_append, List.dropWhile_cons, h c (by simp)]
    simp only [if_pos]
    exact ih (fun x hx => h x (by simp [hx]))

theorem takeWhile_stop (p : Char → Bool) (c : Char) (t : List Char) (h : p c = false) :
    (c :: t).takeWhile p = [] := by
  rw [List.takeWhile_cons, h]
  simp

theorem dropWhile_stop (p : Char → Bool) (c : Char) (t : List Char) (h : p c = false) :
    (c :: t).dropWhile p = c :: t := by
  rw [List.dropWhile_cons, h]
  simp

/-- `span` over an all-satisfying prefix followed by a failing character. -/
theorem span_all_stop (p : Char → Bool) (a : List Char) (c : Char) (r : List Char)
    (ha : ∀ x ∈ a, p x = true) (hc : p c = false) :
    (a ++ c :: r).span p = (a, c :: r) := by
  rw [List.span_eq_take_drop, takeWhile_append_all _ _ _ ha, dropWhile_append_all _ _ _ ha,
    takeWhile_stop _ _ _ hc, dropWhile_stop _ _ _ hc, List.append_nil]

/-- `span` of an all-satisfying list. -/
theorem span_all (p : Char → Bool) (a : List Char) (ha : ∀ x ∈ a, p x = true) :
    a.span p = (a, []) := by
  have h1 : a.takeWhile p = a := by
    have h := takeWhile_append_all p a [] ha
    simpa using h
  have h2 : a.dropWhile p = [] := by
    have h := dropWhile_append_all p a [] ha
    simpa using h
  rw [List.span_eq_take_drop, h1, h2]

theorem filter_all_id (p : Char → Bool) (l : List Char) (h : ∀ c ∈ l, p c = true) :
    l.filter p = l :=
  List.filter_eq_self.mpr h

theorem foldl_append_flatten {α β : Type} (f : α → List β) :
    ∀ (parts : List α) (acc : List β),
      parts.foldl (fun a part => a ++ f part) acc = acc ++ (parts.map f).flatten
  | [], acc => by simp
  | p :: t, acc => by
    rw [List.foldl_cons, foldl_append_flatten f t (acc ++ f p)]
    simp

theorem foldl_snoc_eq_append {α : Type} (l : List α) :
    ∀ s : List α, l.foldl (fun a r => a ++ [r]) s = s ++ l := by
  induction l with
  | nil => simp
  | cons x t ih => intro s; rw [List.foldl_cons, ih (s ++ [x])]; simp

/-- A list is a permutation of any element pulled to the front of its
erasure. -/
theorem cons_eraseIdx_perm {α : Type} :
    ∀ (l : List α) (i : ℕ) (a : α), l.get? i = some a → (a :: l.eraseIdx i).Perm l := by
  intro l
  induction l with
  | nil => intro i a h; simp at h
  | cons x t ih =>
    intro i a h
    cases i with
    | zero =>
      simp at h
      subst h
      simp [List.eraseIdx]
    | succ j =>
      simp only [List.get?_cons_succ] at h
      have hp := ih j a h
      show (a :: x :: t.eraseIdx j).Perm (x :: t)
      exact List.Perm.trans (List.Perm.swap x a (t.eraseIdx j)) (List.Perm.cons x hp)

theorem containsSub_singleton (c : Char) (l : List Char) :
    containsSub [c] l = l.any (fun x => x = c) := by
  induction l with
  | nil => rfl
  | cons x t ih =>
    rw [containsSub, ih]
    simp [strStarts, List.take, eq_comm]

/-- `List.lookup` finds only present keys. -/
theorem lookup_mem_keys {α β : Type} [BEq α] [LawfulBEq α] :
    ∀ (l : List (α × β)) (a : α) (b : β), l.lookup a = some b → a ∈ l.map Prod.fst := by
  intro l
  induction l with
  | nil => intro a b h; simp [List.lookup] at h
  | cons x t ih =>
    intro a b h
    rw [List.lookup] at h
    cases he : a == x.1 with
    | true =>
      have hax : a = x.1 := eq_of_beq he
      simp [hax]
    | false =>
      rw [he] at h
      simp only [List.map_cons, List.mem_cons]
      exact Or.inr (ih a b h)

/-- Invariant of the deletion loop: a successful run moves rows from the
sheet into the captured payload list, so sheet-plus-captures is preserved up
to permutation. -/
theorem delete_loop_perm :
    ∀ (ts : List ℕ) (sheet : List Row) (cache : List CTx) (items : List CTx) (rows : List Row)
      (sheet2 : List Row) (cache2 : List CTx) (items2 : List CTx) (rows2 : List Row),
      delete_loop sheet cache items rows ts = (sheet2, cache2, items2, rows2, true) →
      (sheet2 ++ rows2).Perm (sheet ++ rows) := by
  intro ts
  induction ts with
  | nil =>
    intro sheet cache items rows s2 c2 i2 r2 h
    rw [delete_loop] at h
    simp only [Prod.mk.injEq] at h
    obtain ⟨h1, -, -, h4, -⟩ := h
    rw [← h1, ← h4]
  | cons idx rest ih =>
    intro sheet cache items rows s2 c2 i2 r2 h
    rw [delete_loop] at h
    split at h
    · simp at h
    · rename_i tx hc
      split at h
      · simp at h
      · rename_i row hs
        have hperm := ih _ _ _ _ _ _ _ _ h
        refine hperm.trans ?_
        have h1 : (row :: sheet.eraseIdx (tx.row_index - 1)).Perm sheet :=
          cons_eraseIdx_perm _ _ _ hs
        have step1 : (sheet.eraseIdx (tx.row_index - 1) ++ (rows ++ [row])).Perm
            ((row :: sheet.eraseIdx (tx.row_index - 1)) ++ rows) := by
          rw [← List.append_assoc]
          have hm := @List.perm_middle _ row
            (sheet.eraseIdx (tx.row_index - 1) ++ rows) ([] : List Row)
          simpa using hm
        exact step1.trans (List.Perm.append_right rows h1)

/-- C2: for every cached list and valid (successfully deleted) set of
targets, deleting and then undoing restores the ledger's rows up to
permutation — the pre-delete row count and content, as a multiset (the
restored rows are re-appended at the end, not at their original
positions). -/
theorem delete_then_undo_restores_rows
    (sheet : List Row) (cache : List CTx) (targets : List ℕ)
    (sheet2 : List Row) (cache2 : Option (List CTx)) (msg : String)
    (items : List CTx) (rows : List Row)
    (h : delete_transactions (.nums targets) (some cache) sheet =
      (sheet2, cache2, .tup4 true msg items rows)) :
    (undo_delete rows sheet2).Perm sheet := by
  rw [delete_transactions] at h
  rw [delete_core] at h
  by_cases hr : targets.any (fun idx => idx < 1 || cache.length < idx)
  · rw [if_pos hr] at h
    simp at h
  · rw [if_neg hr] at h
    rcases he : delete_loop sheet cache [] [] (sortDescNat targets) with ⟨s5, c5, i5, r5, b5⟩
    rw [he] at h
    cases b5 with
    | false => simp at h
    | true =>
      have h1 : s5 = sheet2 := congrArg Prod.fst h
      have hdel := congrArg (fun q => q.2.2) h
      simp only [DelRet.tup4.injEq] at hdel
      have h5 : r5 = rows := hdel.2.2.2
      have hperm := delete_loop_perm _ _ _ _ _ _ _ _ _ he
      rw [undo_delete, foldl_snoc_eq_append, ← h1, ← h5]
      simpa using hperm

/-- Witness for C2: the spec's own scenario — delete `3,4,5` (parsed to the
descending targets `[5,4,3]`) against a 10-item cached list over an 11-row
grid, then undo; the result is a permutation of the original grid. -/
theorem delete_then_undo_restores_rows_witness :
    (undo_delete
      [["4", "Expense"], ["3", "Expense"], ["2", "Expense"]]
      [["hdr"], ["0", "Expense"], ["1", "Expense"], ["5", "Expense"], ["6", "Expense"],
       ["7", "Expense"], ["8", "Expense"], ["9", "Expense"]]).Perm demoSheet :=
  delete_then_undo_restores_rows demoSheet demoCache [5, 4, 3]
    [["hdr"], ["0", "Expense"], ["1", "Expense"], ["5", "Expense"], ["6", "Expense"],
     ["7", "Expense"], ["8", "Expense"], ["9", "Expense"]]
    (some [⟨2, "0"⟩, ⟨3, "1"⟩, ⟨4, "2"⟩, ⟨4, "3"⟩, ⟨4, "4"⟩, ⟨4, "5"⟩, ⟨5, "6"⟩,
      ⟨6, "7"⟩, ⟨7, "8"⟩, ⟨8, "9"⟩])
    "Deleted successfully"
    [⟨6, "4"⟩, ⟨5, "3"⟩, ⟨4, "2"⟩]
    [["4", "Expense"], ["3", "Expense"], ["2", "Expense"]]
    (by rfl)

/-- C3 (the code, not the claim): two concrete inputs make the handler raise
past the command boundary.  Free text containing the token `1.2.3` reaches
`parse_transaction`, whose amount scan calls `float("1.2.3")` —
`ValueError`.  A `delete 5` with no cached list makes `delete_transactions`
return a 3-tuple which the handler unpacks into four names — `ValueError`.
(The same 3-tuple arity mismatch fires for out-of-range targets and for a
missing store connection.) -/
theorem handler_unhandled_errors :
    parse_transaction "1.2.3 lunch" "Jacob" (2025, 3) (fun _ => none) = .error () ∧
    extract_amount_from_text "1.2.3 lunch" = .error () ∧
    handle_delete "delete 5" none demoSheet = .error () :=
  ⟨rfl, rfl, rfl⟩

/-- C9 counterexample: `parse_amount("0")` parses to the value `0`, yet the
extraction caller reports *no* amount and keeps the token — a zero-valued
token is conflated with the absence of an amount (`if parsed and ...` is
falsy on `0`), contrary to the claim. -/
theorem amount_zero_conflated_counterexample :
    parse_amount "0" = .ok (some 0) ∧
    extract_amount_from_text "0 lunch" = .ok (none, "0 lunch") ∧
    (.ok (none, "0 lunch") : Except Unit (Option ℕ × String)) ≠ .ok (some 0, "lunch") := by
  refine ⟨rfl, rfl, ?_⟩
  intro h
  simp at h

/-- Characters failing both the digit and dot classes kill both regexes of
`parse_amount`. -/
theorem vietDecimalMatch_no_digit (l : List Char) (h : ∀ c ∈ l, pyIsDigit c = false) :
    vietDecimalMatch l = false := by
  rw [vietDecimalMatch]
  cases l with
  | nil => rfl
  | cons c t =>
    rw [List.span_eq_take_drop, takeWhile_stop _ _ _ (h c (by simp))]
    rfl

theorem amountMatch_no_body (l : List Char) (h : ∀ c ∈ l, (pyIsDigit c || c = '.') = false) :
    amountMatch l = none := by
  rw [amountMatch]
  cases l with
  | nil => rfl
  | cons c t =>
    rw [List.span_eq_take_drop, takeWhile_stop _ _ _ (h c (by simp))]
    rfl

theorem mem_pyStrip (c : Char) (l : List Char) (h : c ∈ pyStrip l) : c ∈ l := by
  rw [pyStrip] at h
  rw [List.mem_reverse] at h
  have h1 := (@List.dropWhile_sublist _ ((l.dropWhile pyIsWS).reverse) pyIsWS).mem h
  rw [List.mem_reverse] at h1
  exact (@List.dropWhile_sublist _ l pyIsWS).mem h1

/-- The word-loop of the amount extractor ignores every word that parses to
`None` or to the falsy value `0`. -/
theorem extract_amount_loop_none :
    ∀ (ws : List (List Char)) (rem : List (List Char)),
      (∀ w ∈ ws, parse_amount_chars w = .ok none ∨ parse_amount_chars w = .ok (some 0)) →
      extract_amount_loop none rem ws = .ok (none, rem ++ ws) := by
  intro ws
  induction ws with
  | nil => intro rem _; simp [extract_amount_loop]
  | cons w t ih =>
    intro rem h
    rw [extract_amount_loop]
    rcases h w (by simp) with hw | hw
    · rw [hw]
      simp only []
      rw [ih (rem ++ [w]) (fun v hv => h v (by simp [hv]))]
      simp
    · rw [hw]
      simp only []
      rw [ih (rem ++ [w]) (fun v hv => h v (by simp [hv]))]
      simp

/-- C9 amended: `parse_amount` returns the distinct no-match `None` (never
zero) on tokens with no digit or dot characters at all; a body that fails
`float()` (two dots) raises instead; and the extraction caller treats a
token parsing to `0` exactly like an absent amount (zero is *conflated*
with absence, not distinguished). -/
theorem parse_amount_no_match_and_zero_absent :
    (∀ s : String, (∀ c ∈ s.data, pyIsDigit c = false ∧ c ≠ '.') → parse_amount s = .ok none) ∧
    (∀ ws : List (List Char),
      (∀ w ∈ ws, parse_amount_chars w = .ok none ∨ parse_amount_chars w = .ok (some 0)) →
      extract_amount_loop none [] ws = .ok (none, ws)) ∧
    parse_amount "1.2.3" = .error () := by
  refine ⟨?_, ?_, rfl⟩
  · intro s h
    have hsub : ∀ c ∈ pyStrip (s.data.filter fun c => c ≠ '₩' && c ≠ ' '),
        pyIsDigit c = false ∧ c ≠ '.' := by
      intro c hc
      exact h c (List.mem_of_mem_filter (mem_pyStrip _ _ hc))
    have hv : vietDecimalMatch (pyStrip (s.data.filter fun c => c ≠ '₩' && c ≠ ' ')) = false :=
      vietDecimalMatch_no_digit _ (fun c hc => (hsub c hc).1)
    have ha : amountMatch
        ((pyStrip (s.data.filter fun c => c ≠ '₩' && c ≠ ' ')).filter fun c => c ≠ ',') =
        none := by
      refine amountMatch_no_body _ ?_
      intro c hc
      have h2 := hsub c (List.mem_of_mem_filter hc)
      simp [h2.1, h2.2]
    show parse_amount_chars s.data = .ok none
    rw [parse_amount_chars]
    simp only [hv, if_neg (by simp : ¬(false = true))]
    rw [ha]
  · intro ws h
    have := extract_amount_loop_none ws [] h
    simpa using this

set_option maxRecDepth 100000 in
/-- C8 counterexample: with the set enumerated in reverse-insertion order (a
legitimate enumeration — `List.reverse` is a permutation, and a Python `set`
guarantees no order at all), identifiers "0".."100" followed by a redelivery
of "100" are *all* processed: the overflow trim evicted "100" right after
its first processing, so the duplicate delivery mutates the ledger a second
time; and the retained half is the *oldest* 50 ("0" stays, "100" does not),
not the most-recently-inserted half. -/
theorem dup_filter_eviction_counterexample :
    (dup_filter_run List.reverse [] (demoEventIds ++ ["100"])).1 = List.replicate 102 true ∧
    "100" ∉ (dup_filter_run List.reverse [] demoEventIds).2 ∧
    "0" ∈ (dup_filter_run List.reverse [] demoEventIds).2 := by
  refine ⟨by decide, by decide, by decide⟩

/-- C8 amended: the filter guarantees at most one mutation per identifier
only *while the identifier remains in the bounded set*: a recorded
identifier is always suppressed and leaves the state unchanged; a new
identifier is recorded (after the membership test) when below capacity; and
for any enumeration the state stays bounded by 100 — but on overflow the
retained half is enumeration-dependent, not the most recent one. -/
theorem dup_filter_amended (enum : List String → List String) (state : List String)
    (eid : String) :
    (eid ≠ "" → eid ∈ state → is_duplicate_event enum state eid = (true, state)) ∧
    (eid ≠ "" → eid ∉ state → state.length < 100 →
      is_duplicate_event enum state eid = (false, state ++ [eid])) ∧
    ((∀ s, (enum s).Perm s) → state.length ≤ 100 →
      ((is_duplicate_event enum state eid).2).length ≤ 100) := by
  refine ⟨?_, ?_, ?_⟩
  · intro hne hmem
    rw [is_duplicate_event, if_neg hne, if_pos hmem]
  · intro hne hmem hlen
    rw [is_duplicate_event, if_neg hne, if_neg hmem]
    have : ¬(100 < (state ++ [eid]).length) := by
      simp only [List.length_append, List.length_singleton]
      omega
    simp only [this, if_neg, ite_false]
  · intro hperm hlen
    rw [is_duplicate_event]
    by_cases h0 : eid = ""
    · simpa [h0] using hlen
    · rw [if_neg h0]
      by_cases hmem : eid ∈ state
      · simpa [hmem] using hlen
      · rw [if_neg hmem]
        by_cases hov : 100 < (state ++ [eid]).length
        · rw [if_pos hov]
          have he : (enum (state ++ [eid])).length = (state ++ [eid]).length :=
            (hperm (state ++ [eid])).length_eq
          simp only [List.length_drop]
          omega
        · rw [if_neg hov]
          simp only [List.length_append, List.length_singleton] at hov ⊢
          omega

/-- Witness for C8 amended: a present identifier is suppressed, a fresh one
is recorded, and the state stays bounded, at concrete inputs with the
identity enumeration. -/
theorem dup_filter_amended_witness :
    is_duplicate_event id ["a"] "a" = (true, ["a"]) ∧
    is_duplicate_event id ["a"] "b" = (false, ["a", "b"]) ∧
    ((is_duplicate_event id ["a"] "b").2).length ≤ 100 :=
  ⟨(dup_filter_amended id ["a"] "a").1 (by decide) (by decide),
   (dup_filter_amended id ["a"] "b").2.1 (by decide) (by decide) (by decide),
   (dup_filter_amended id ["a"] "b").2.2 (fun s => List.Perm.refl s) (by decide)⟩

/-- C10 counterexample: the `fund` calculator records an undo action of kind
`fund_calc` (line 1700), a kind outside the claimed set, and `perform_undo`
has no branch for it — `undo` right after `fund` replies
"Unknown action type". -/
theorem undo_kind_fund_calc_counterexample :
    ("fund", "fund_calc") ∈ STORE_UNDO_KINDS ∧
    perform_undo_dispatch "fund_calc" = none ∧
    "fund_calc" ∉ CLAIMED_UNDO_KINDS := by
  refine ⟨by decide, rfl, by decide⟩

/-- C10 amended: every kind ever recorded is either `fund_calc` (recorded by
the fund calculator as a stash for `fund apply`, and *not* reversible) or
one of the six claimed kinds, each of which has a reversal branch in
`perform_undo`. -/
theorem undo_kinds_amended :
    ∀ p ∈ STORE_UNDO_KINDS,
      p.2 = "fund_calc" ∨
        (p.2 ∈ CLAIMED_UNDO_KINDS ∧ (perform_undo_dispatch p.2).isSome = true) := by
  decide

/-- Witness for C10 amended at the `delete` record site. -/
theorem undo_kinds_amended_witness :
    "delete" ∈ CLAIMED_UNDO_KINDS ∧ (perform_undo_dispatch "delete").isSome = true := by
  have h := undo_kinds_amended ("delete", "delete") (by decide)
  rcases h with h | h
  · exact absurd h (by decide)
  · exact h

theorem dropWhile_all_not (p : Char → Bool) (l : List Char) (h : ∀ c ∈ l, p c = false) :
    l.dropWhile p = l := by
  cases l with
  | nil => rfl
  | cons c t => exact dropWhile_stop _ _ _ (h c (by simp))

theorem digit_ne (c d : Char) (h : pyIsDigit c = true) (hd : pyIsDigit d = false) : c ≠ d := by
  intro hc
  subst hc
  rw [h] at hd
  cases hd

theorem digit_not_ws (c : Char) (h : pyIsDigit c = true) : pyIsWS c = false := by
  cases hw : pyIsWS c
  · rfl
  · exfalso
    rw [pyIsWS] at hw
    simp only [Bool.or_eq_true, decide_eq_true_eq] at hw
    rcases hw with ((((rfl | rfl) | rfl) | rfl) | rfl) | rfl <;> exact absurd h (by decide)

/-- A character of an amount token (digit, comma, dot or suffix letter)
survives the currency/space stripping untouched. -/
theorem tokenChar_not_stripped (c : Char)
    (h : pyIsDigit c = true ∨ c = ',' ∨ c = '.' ∨ c = 'm' ∨ c = 'k' ∨ c = 'M' ∨ c = 'K') :
    (c ≠ '₩' && c ≠ ' ') = true ∧ pyIsWS c = false := by
  rcases h with h | rfl | rfl | rfl | rfl | rfl | rfl
  · refine ⟨?_, digit_not_ws c h⟩
    simp [digit_ne c '₩' h (by decide), digit_ne c ' ' h (by decide)]
  all_goals exact ⟨by decide, by decide⟩

/-- The `₩`/space stripping of `parse_amount` is the identity on lists of
unstripped characters. -/
theorem preproc_id (l : List Char)
    (h : ∀ c ∈ l, (c ≠ '₩' && c ≠ ' ') = true ∧ pyIsWS c = false) :
    pyStrip (l.filter (fun c => c ≠ '₩' && c ≠ ' ')) = l := by
  rw [filter_all_id _ _ (fun c hc => (h c hc).1), pyStrip,
    dropWhile_all_not _ _ (fun c hc => (h c hc).2),
    dropWhile_all_not _ _ (fun c hc => (h c (List.mem_reverse.mp hc)).2),
    List.reverse_reverse]

theorem map_comma_dot_id (l : List Char) (h : ∀ c ∈ l, c ≠ ',') :
    l.map (fun c => if c = ',' then '.' else c) = l := by
  induction l with
  | nil => rfl
  | cons c t ih =>
    rw [List.map_cons, if_neg (h c (by simp)), ih (fun x hx => h x (by simp [hx]))]

theorem filter_all_comma_id (l : List Char) (h : ∀ c ∈ l, c ≠ ',') :
    l.filter (fun c => c ≠ ',') = l :=
  filter_all_id _ _ (fun c hc => by simp [h c hc])

/-- `amountMatch` on an all-satisfying body followed by one suffix
letter. -/
theorem amountMatch_body_stop (body : List Char) (s : Char) (hne : body ≠ [])
    (hall : ∀ c ∈ body, (pyIsDigit c || c = '.') = true)
    (hnd : (pyIsDigit s || s = '.') = false)
    (hsfx : (s = 'm' || s = 'k' || s = 'M' || s = 'K') = true) :
    amountMatch (body ++ [s]) = some (body, some s) := by
  rw [amountMatch, show body ++ [s] = body ++ s :: [] from rfl,
    span_all_stop _ _ _ _ hall hnd]
  simp [hne, hsfx]

/-- `amountMatch` on an all-satisfying body with no suffix. -/
theorem amountMatch_body_end (body : List Char) (hne : body ≠ [])
    (hall : ∀ c ∈ body, (pyIsDigit c || c = '.') = true) :
    amountMatch body = some (body, none) := by
  rw [amountMatch, span_all _ _ hall]
  simp [hne]

/-- `amountMatch` on an all-digit body followed by an optional suffix. -/
theorem amountMatch_digits (body : List Char) (osfx : Option Char)
    (hne : body ≠ []) (hd : ∀ c ∈ body, pyIsDigit c = true)
    (hs : osfx = none ∨ osfx = some 'm' ∨ osfx = some 'k' ∨ osfx = some 'M' ∨ osfx = some 'K') :
    amountMatch (body ++ osfx.toList) = some (body, osfx) := by
  have hall : ∀ c ∈ body, (pyIsDigit c || c = '.') = true := fun c hc => by simp [hd c hc]
  rcases hs with rfl | rfl | rfl | rfl | rfl
  · rw [show body ++ (none : Option Char).toList = body by simp]
    exact amountMatch_body_end body hne hall
  all_goals exact amountMatch_body_stop body _ hne hall (by decide) (by decide)

/-- `amountMatch` on a digits-dot-digits body followed by an optional
suffix. -/
theorem amountMatch_digits_dot (ip fp : List Char) (osfx : Option Char)
    (hip : ∀ c ∈ ip, pyIsDigit c = true) (hfp : ∀ c ∈ fp, pyIsDigit c = true)
    (hs : osfx = none ∨ osfx = some 'm' ∨ osfx = some 'k' ∨ osfx = some 'M' ∨ osfx = some 'K') :
    amountMatch (ip ++ '.' :: fp ++ osfx.toList) = some (ip ++ '.' :: fp, osfx) := by
  have hall : ∀ c ∈ ip ++ '.' :: fp, (pyIsDigit c || c = '.') = true := by
    intro c hc
    rcases List.mem_append.mp hc with hc | hc
    · simp [hip c hc]
    · rcases List.mem_cons.mp hc with rfl | hc
      · simp
      · simp [hfp c hc]
  have hne : ip ++ '.' :: fp ≠ [] := by simp
  have hassoc : ∀ s : Char, ip ++ '.' :: fp ++ (some s : Option Char).toList =
      (ip ++ '.' :: fp) ++ [s] := fun s => by simp
  rcases hs with rfl | rfl | rfl | rfl | rfl
  · rw [show ip ++ '.' :: fp ++ (none : Option Char).toList = ip ++ '.' :: fp by simp]
    exact amountMatch_body_end _ hne hall
  all_goals
    rw [hassoc]
    exact amountMatch_body_stop _ _ hne hall (by decide) (by decide)

theorem floatVal_digits (body : List Char) (hne : body ≠ [])
    (hd : ∀ c ∈ body, pyIsDigit c = true) :
    floatVal body = some (digitsVal body, 0) := by
  rw [floatVal, span_all _ _ hd]
  simp [hne]

theorem floatVal_digits_dot (ip fp : List Char)
    (hip : ∀ c ∈ ip, pyIsDigit c = true) (hfp : ∀ c ∈ fp, pyIsDigit c = true)
    (hne : ip ≠ [] ∨ fp ≠ []) :
    floatVal (ip ++ '.' :: fp) = some (digitsVal (ip ++ fp), fp.length) := by
  have hcond : (fp.all pyIsDigit && (decide (ip ≠ []) || decide (fp ≠ []))) = true := by
    refine (Bool.and_eq_true _ _).mpr ⟨List.all_eq_true.mpr (fun c hc => hfp c hc), ?_⟩
    rcases hne with h | h <;> simp [h]
  rw [floatVal, span_all_stop _ _ _ _ hip (by decide)]
  simp only [hcond]
  simp

/-- The Vietnamese-decimal regex accepts `digits , digits suffix` with any
number of digits after the comma. -/
theorem vietMatch_pos (a b : List Char) (sfx : Char) (ha : a ≠ []) (hb : b ≠ [])
    (hda : ∀ c ∈ a, pyIsDigit c = true) (hdb : ∀ c ∈ b, pyIsDigit c = true)
    (hnd : pyIsDigit sfx = false)
    (hsfx : ([sfx] = ['m'] || [sfx] = ['k'] || [sfx] = ['M'] || [sfx] = ['K']) = true) :
    vietDecimalMatch (a ++ ',' :: b ++ [sfx]) = true := by
  have h1 := span_all_stop pyIsDigit a ',' (b ++ [sfx]) hda (by decide)
  have h2 : (b ++ [sfx]).span pyIsDigit = (b, [sfx]) := by
    rw [show b ++ [sfx] = b ++ sfx :: [] from rfl]
    exact span_all_stop _ _ _ _ hdb hnd
  rw [show a ++ ',' :: b ++ [sfx] = a ++ ',' :: (b ++ [sfx]) by simp]
  rw [vietDecimalMatch, h1]
  simp only []
  rw [h2]
  simp only []
  simp [ha, hb]
  simpa using hsfx

theorem span_digits_sfx (d : List Char) (s : Char) (hd : ∀ c ∈ d, pyIsDigit c = true)
    (hnd : pyIsDigit s = false) : (d ++ [s]).span pyIsDigit = (d, [s]) := by
  rw [show d ++ [s] = d ++ s :: [] from rfl]
  exact span_all_stop _ _ _ _ hd hnd

/-- A bare digit group with a suffix letter never matches the
Vietnamese-decimal regex (no comma). -/
theorem vietMatch_sfx_neg (d : List Char) (hd : ∀ c ∈ d, pyIsDigit c = true) :
    vietDecimalMatch (d ++ ['m']) = false ∧ vietDecimalMatch (d ++ ['k']) = false ∧
    vietDecimalMatch (d ++ ['M']) = false ∧ vietDecimalMatch (d ++ ['K']) = false := by
  refine ⟨?_, ?_, ?_, ?_⟩ <;>
    [rw [vietDecimalMatch, span_digits_sfx d 'm' hd (by decide)];
     rw [vietDecimalMatch, span_digits_sfx d 'k' hd (by decide)];
     rw [vietDecimalMatch, span_digits_sfx d 'M' hd (by decide)];
     rw [vietDecimalMatch, span_digits_sfx d 'K' hd (by decide)]] <;>
    simp

/-- A bare digit group never matches the Vietnamese-decimal regex. -/
theorem vietMatch_digits_neg (d : List Char) (hd : ∀ c ∈ d, pyIsDigit c = true) :
    vietDecimalMatch d = false := by
  rw [vietDecimalMatch, span_all pyIsDigit d hd]
  simp

/-- A token whose digit prefix is followed by a comma and then a *comma
containing or suffix-free* remainder fails the second digit-group test of
the regex.  Specialised to the two shapes produced by three-or-more
comma-joined groups and by suffix-free two-group joins. -/
theorem vietMatch_comma_no_suffix_neg (d1 d2 : List Char)
    (hd1 : ∀ c ∈ d1, pyIsDigit c = true) (hd2 : ∀ c ∈ d2, pyIsDigit c = true) :
    vietDecimalMatch (d1 ++ ',' :: d2) = false := by
  rw [vietDecimalMatch, span_all_stop pyIsDigit d1 ',' d2 hd1 (by decide)]
  simp only []
  rw [span_all pyIsDigit d2 hd2]
  simp only []
  simp

theorem vietMatch_two_commas_neg (d1 d2 rest : List Char)
    (hd1 : ∀ c ∈ d1, pyIsDigit c = true) (hd2 : ∀ c ∈ d2, pyIsDigit c = true) :
    vietDecimalMatch (d1 ++ ',' :: (d2 ++ ',' :: rest)) = false := by
  rw [vietDecimalMatch, span_all_stop pyIsDigit d1 ',' (d2 ++ ',' :: rest) hd1 (by decide)]
  simp only []
  rw [span_all_stop pyIsDigit d2 ',' rest hd2 (by decide)]
  simp only []
  simp

/-- A comma-join of digit groups with an optional suffix never matches the
Vietnamese-decimal regex unless it is exactly two groups *with* a suffix. -/
theorem vietMatch_join_neg (ds : List (List Char)) (osfx : Option Char)
    (hwf : ∀ d ∈ ds, d ≠ [] ∧ ∀ c ∈ d, pyIsDigit c = true)
    (hs : osfx = none ∨ osfx = some 'm' ∨ osfx = some 'k' ∨ osfx = some 'M' ∨ osfx = some 'K')
    (hlen : ¬(ds.length = 2 ∧ osfx.isSome = true)) :
    vietDecimalMatch (joinChar ',' ds ++ osfx.toList) = false := by
  cases ds with
  | nil =>
    rcases hs with rfl | rfl | rfl | rfl | rfl <;> rfl
  | cons d1 t =>
    cases t with
    | nil =>
      rw [joinChar_singleton]
      rcases hs with rfl | rfl | rfl | rfl | rfl
      · rw [show d1 ++ (none : Option Char).toList = d1 by simp]
        exact vietMatch_digits_neg d1 (hwf d1 (by simp)).2
      · exact (vietMatch_sfx_neg d1 (hwf d1 (by simp)).2).1
      · exact (vietMatch_sfx_neg d1 (hwf d1 (by simp)).2).2.1
      · exact (vietMatch_sfx_neg d1 (hwf d1 (by simp)).2).2.2.1
      · exact (vietMatch_sfx_neg d1 (hwf d1 (by simp)).2).2.2.2
    | cons d2 t2 =>
      rw [joinChar_cons_cons]
      cases t2 with
      | nil =>
        have hnone : osfx = none := by
          rcases hs with rfl | rfl | rfl | rfl | rfl
          · rfl
          all_goals exact absurd ⟨rfl, rfl⟩ hlen
        subst hnone
        rw [show (d1 ++ ',' :: joinChar ',' [d2]) ++ (none : Option Char).toList =
          d1 ++ ',' :: d2 by simp [joinChar_singleton]]
        exact vietMatch_comma_no_suffix_neg d1 d2 (hwf d1 (by simp)).2 (hwf d2 (by simp)).2
      | cons d3 t3 =>
        rw [show (d1 ++ ',' :: joinChar ',' (d2 :: d3 :: t3)) ++ osfx.toList =
          d1 ++ ',' :: (d2 ++ ',' :: (joinChar ',' (d3 :: t3) ++ osfx.toList)) by
            simp [joinChar_cons_cons]]
        exact vietMatch_two_commas_neg d1 d2 _ (hwf d1 (by simp)).2 (hwf d2 (by simp)).2

theorem mem_joinChar (sep : Char) (ds : List (List Char)) (c : Char)
    (hc : c ∈ joinChar sep ds) : (∃ d ∈ ds, c ∈ d) ∨ c = sep := by
  induction ds with
  | nil => simp [joinChar] at hc
  | cons x t ih =>
    cases t with
    | nil =>
      rw [joinChar_singleton] at hc
      exact Or.inl ⟨x, by simp, hc⟩
    | cons y t2 =>
      rw [joinChar_cons_cons] at hc
      rcases List.mem_append.mp hc with hc | hc
      · exact Or.inl ⟨x, by simp, hc⟩
      · rcases List.mem_cons.mp hc with rfl | hc
        · exact Or.inr rfl
        · rcases ih hc with ⟨d, hd, hcd⟩ | h
          · exact Or.inl ⟨d, by simp [hd], hcd⟩
          · exact Or.inr h

theorem filter_comma_join (ds : List (List Char)) (h : ∀ d ∈ ds, ∀ c ∈ d, c ≠ ',') :
    (joinChar ',' ds).filter (fun c => c ≠ ',') = ds.flatten := by
  induction ds with
  | nil => rfl
  | cons x t ih =>
    cases t with
    | nil =>
      rw [joinChar_singleton, filter_all_comma_id x (h x (by simp))]
      simp
    | cons y t2 =>
      rw [joinChar_cons_cons, List.filter_append,
        filter_all_comma_id x (h x (by simp)),
        List.filter_cons_of_neg (by simp),
        ih (fun d hd c hc => h d (by simp [hd]) c hc)]
      simp

theorem preproc_amount_id (l : List Char)
    (h : ∀ c ∈ l, pyIsDigit c = true ∨ c = ',' ∨ c = '.' ∨ c = 'm' ∨ c = 'k' ∨ c = 'M' ∨ c = 'K') :
    pyStrip (l.filter (fun c => c ≠ '₩' && c ≠ ' ')) = l :=
  preproc_id l (fun c hc => tokenChar_not_stripped c (h c hc))

/-- `parse_amount` on the decimal-comma shape `digits , digits suffix`. -/
theorem parse_amount_viet_core (a b : List Char) (sfx : Char) (ha : a ≠ []) (hb : b ≠ [])
    (hda : ∀ c ∈ a, pyIsDigit c = true) (hdb : ∀ c ∈ b, pyIsDigit c = true)
    (hs : sfx = 'm' ∨ sfx = 'k' ∨ sfx = 'M' ∨ sfx = 'K') :
    parse_amount_chars (a ++ ',' :: b ++ [sfx]) =
      .ok (some (decTrunc (digitsVal (a ++ b)) b.length (suffixMult (some sfx)))) := by
  have hndc : pyIsDigit sfx = false := by rcases hs with rfl | rfl | rfl | rfl <;> decide
  have hnc : sfx ≠ ',' := by rcases hs with rfl | rfl | rfl | rfl <;> decide
  have hsfx4 : ([sfx] = ['m'] || [sfx] = ['k'] || [sfx] = ['M'] || [sfx] = ['K']) = true := by
    rcases hs with rfl | rfl | rfl | rfl <;> decide
  have hos : (some sfx : Option Char) = none ∨ (some sfx : Option Char) = some 'm' ∨
      (some sfx : Option Char) = some 'k' ∨ (some sfx : Option Char) = some 'M' ∨
      (some sfx : Option Char) = some 'K' := by
    rcases hs with rfl | rfl | rfl | rfl <;> simp
  have hcls : ∀ c ∈ a ++ ',' :: b ++ [sfx],
      pyIsDigit c = true ∨ c = ',' ∨ c = '.' ∨ c = 'm' ∨ c = 'k' ∨ c = 'M' ∨ c = 'K' := by
    intro c hc
    rw [show a ++ ',' :: b ++ [sfx] = a ++ (',' :: (b ++ [sfx])) by simp] at hc
    rcases List.mem_append.mp hc with hc | hc
    · exact Or.inl (hda c hc)
    · rcases List.mem_cons.mp hc with rfl | hc
      · exact Or.inr (Or.inl rfl)
      · rcases List.mem_append.mp hc with hc | hc
        · exact Or.inl (hdb c hc)
        · have hce : c = sfx := by simpa using hc
          subst hce
          rcases hs with rfl | rfl | rfl | rfl <;> simp
  have hpre := preproc_amount_id _ hcls
  have hviet := vietMatch_pos a b sfx ha hb hda hdb hndc hsfx4
  have hmap : (a ++ ',' :: b ++ [sfx]).map (fun c => if c = ',' then '.' else c) =
      a ++ '.' :: b ++ [sfx] := by
    simp only [List.map_append, List.map_cons]
    rw [map_comma_dot_id a (fun c hc => digit_ne c ',' (hda c hc) (by decide)),
      map_comma_dot_id b (fun c hc => digit_ne c ',' (hdb c hc) (by decide))]
    simp [hnc]
  have hmatch := amountMatch_digits_dot a b (some sfx) hda hdb hos
  rw [show a ++ '.' :: b ++ (some sfx : Option Char).toList = a ++ '.' :: b ++ [sfx]
    from rfl] at hmatch
  have hfloat := floatVal_digits_dot a b hda hdb (Or.inl ha)
  simp only [parse_amount_chars, hpre, hviet, if_true, hmap, hmatch, hfloat]

/-- `parse_amount` on comma-joined digit groups (thousands separators) with
an optional suffix, except the two-group-with-suffix shape. -/
theorem parse_amount_thousands_core (ds : List (List Char)) (osfx : Option Char)
    (hne : ds ≠ []) (hwf : ∀ d ∈ ds, d ≠ [] ∧ ∀ c ∈ d, pyIsDigit c = true)
    (hs : osfx = none ∨ osfx = some 'm' ∨ osfx = some 'k' ∨ osfx = some 'M' ∨ osfx = some 'K')
    (hlen : ¬(ds.length = 2 ∧ osfx.isSome = true)) :
    parse_amount_chars (joinChar ',' ds ++ osfx.toList) =
      .ok (some (digitsVal ds.flatten * suffixMult osfx)) := by
  have hcls : ∀ c ∈ joinChar ',' ds ++ osfx.toList,
      pyIsDigit c = true ∨ c = ',' ∨ c = '.' ∨ c = 'm' ∨ c = 'k' ∨ c = 'M' ∨ c = 'K' := by
    intro c hc
    rcases List.mem_append.mp hc with hc | hc
    · rcases mem_joinChar ',' ds c hc with ⟨d, hd, hcd⟩ | rfl
      · exact Or.inl ((hwf d hd).2 c hcd)
      · exact Or.inr (Or.inl rfl)
    · rcases hs with rfl | rfl | rfl | rfl | rfl
      · simp at hc
      all_goals {
        simp only [Option.toList, List.mem_singleton] at hc
        subst hc
        simp }
  have hpre := preproc_amount_id _ hcls
  have hviet := vietMatch_join_neg ds osfx hwf hs hlen
  have hfil : (joinChar ',' ds ++ osfx.toList).filter (fun c => c ≠ ',') =
      ds.flatten ++ osfx.toList := by
    rw [List.filter_append,
      filter_comma_join ds (fun d hd c hc => digit_ne c ',' ((hwf d hd).2 c hc) (by decide))]
    congr 1
    rcases hs with rfl | rfl | rfl | rfl | rfl <;> rfl
  have hflne : ds.flatten ≠ [] := by
    cases ds with
    | nil => exact absurd rfl hne
    | cons d t =>
      have hd := (hwf d (by simp)).1
      simp [hd]
  have hfld : ∀ c ∈ ds.flatten, pyIsDigit c = true := by
    intro c hc
    obtain ⟨d, hd, hcd⟩ := List.mem_flatten.mp hc
    exact (hwf d hd).2 c hcd
  have hmatch := amountMatch_digits ds.flatten osfx hflne hfld hs
  have hfloat := floatVal_digits ds.flatten hflne hfld
  simp only [parse_amount_chars, hpre, hviet, hfil]
  rw [if_neg (by simp : ¬(false = true))]
  rw [hmatch]
  simp only []
  rw [hfloat]
  simp only []
  simp [decTrunc]

/-- `parse_amount` on the dot-decimal shape `digits [. digits] suffix?`. -/
theorem parse_amount_dot_core (ip fp : List Char) (osfx : Option Char)
    (hip : ∀ c ∈ ip, pyIsDigit c = true) (hfp : ∀ c ∈ fp, pyIsDigit c = true)
    (hne : ip ≠ [] ∨ fp ≠ [])
    (hs : osfx = none ∨ osfx = some 'm' ∨ osfx = some 'k' ∨ osfx = some 'M' ∨ osfx = some 'K') :
    parse_amount_chars (ip ++ '.' :: fp ++ osfx.toList) =
      .ok (some (decTrunc (digitsVal (ip ++ fp)) fp.length (suffixMult osfx))) := by
  have hcls : ∀ c ∈ ip ++ '.' :: fp ++ osfx.toList,
      pyIsDigit c = true ∨ c = ',' ∨ c = '.' ∨ c = 'm' ∨ c = 'k' ∨ c = 'M' ∨ c = 'K' := by
    intro c hc
    rw [show ip ++ '.' :: fp ++ osfx.toList = ip ++ ('.' :: (fp ++ osfx.toList)) by simp] at hc
    rcases List.mem_append.mp hc with hc | hc
    · exact Or.inl (hip c hc)
    · rcases List.mem_cons.mp hc with rfl | hc
      · exact Or.inr (Or.inr (Or.inl rfl))
      · rcases List.mem_append.mp hc with hc | hc
        · exact Or.inl (hfp c hc)
        · rcases hs with rfl | rfl | rfl | rfl | rfl
          · simp at hc
          all_goals {
            simp only [Option.toList, List.mem_singleton] at hc
            subst hc
            simp }
  have hpre := preproc_amount_id _ hcls
  have hviet : vietDecimalMatch (ip ++ '.' :: fp ++ osfx.toList) = false := by
    rw [show ip ++ '.' :: fp ++ osfx.toList = ip ++ '.' :: (fp ++ osfx.toList) by simp]
    rw [vietDecimalMatch, span_all_stop pyIsDigit ip '.' (fp ++ osfx.toList) hip (by decide)]
    simp only []
    simp
  have hfil : (ip ++ '.' :: fp ++ osfx.toList).filter (fun c => c ≠ ',') =
      ip ++ '.' :: fp ++ osfx.toList := by
    refine filter_all_comma_id _ ?_
    intro c hc
    rw [show ip ++ '.' :: fp ++ osfx.toList = ip ++ ('.' :: (fp ++ osfx.toList)) by simp] at hc
    rcases List.mem_append.mp hc with hc | hc
    · exact digit_ne c ',' (hip c hc) (by decide)
    · rcases List.mem_cons.mp hc with rfl | hc
      · decide
      · rcases List.mem_append.mp hc with hc | hc
        · exact digit_ne c ',' (hfp c hc) (by decide)
        · rcases hs with rfl | rfl | rfl | rfl | rfl
          · simp at hc
          all_goals {
            simp only [Option.toList, List.mem_singleton] at hc
            subst hc
            decide }
  have hmatch := amountMatch_digits_dot ip fp osfx hip hfp hs
  have hfloat := floatVal_digits_dot ip fp hip hfp hne
  simp only [parse_amount_chars, hpre, hviet, hfil]
  rw [if_neg (by simp : ¬(false = true))]
  rw [hmatch]
  simp only []
  rw [hfloat]

/-- C1 counterexample: on `15,55k` — two digits between the comma and the
suffix — the code still treats the comma as a decimal point (the regex is
`\d+,\d+[mkMK]`, one *or more* digits), yielding 15550, while the claim's
"exactly one digit" rule makes the comma a thousands separator, yielding
1555000. -/
theorem parse_amount_comma_rule_counterexample :
    parse_amount "15,55k" = .ok (some 15550) ∧
    parse_amount_specC1 "15,55k" = some 1555000 ∧
    (15550 : ℕ) ≠ 1555000 :=
  ⟨rfl, rfl, by decide⟩

/-- C1 amended: the comma is a decimal point whenever it is followed by *one
or more* digits and a K/M suffix; otherwise commas are thousands separators
and are stripped; `M` multiplies by 1,000,000, `K` by 1,000, and a bare
number (optionally with a dot fraction) is truncated to its integer part.
The program evaluates `int(float(body) * mult)` in binary64, so each
value-asserting clause is guarded to the region where that computation is
provably exact and coincides with the decimal rule: the fractional digits'
value is divisible by `5 ^ k` (the number written is a dyadic rational) and
the scaled product stays below `2 ^ 53`.  Outside the guards the binary
result can differ (CPython: `8,165k` → 8164) and nothing is asserted.  The
three spec examples hold; their binary64 evaluations were checked to
coincide (`int(float("15.5") * 1000) = 15500`,
`int(float("2800000")) = 2800000`, `int(float("2.8") * 1000000) = 2800000`
— the last rounds up to exactly `2800000.0`). -/
theorem parse_amount_grammar_amended :
    (∀ (a b : List Char) (sfx : Char),
      a ≠ [] → b ≠ [] → (∀ c ∈ a, pyIsDigit c = true) → (∀ c ∈ b, pyIsDigit c = true) →
      (sfx = 'm' ∨ sfx = 'k' ∨ sfx = 'M' ∨ sfx = 'K') →
      digitsVal b % 5 ^ b.length = 0 →
      digitsVal (a ++ b) * suffixMult (some sfx) < 2 ^ 53 →
      parse_amount_chars (a ++ ',' :: b ++ [sfx]) =
        .ok (some (decTrunc (digitsVal (a ++ b)) b.length (suffixMult (some sfx))))) ∧
    (∀ (ds : List (List Char)) (osfx : Option Char),
      ds ≠ [] → (∀ d ∈ ds, d ≠ [] ∧ ∀ c ∈ d, pyIsDigit c = true) →
      (osfx = none ∨ osfx = some 'm' ∨ osfx = some 'k' ∨ osfx = some 'M' ∨ osfx = some 'K') →
      ¬(ds.length = 2 ∧ osfx.isSome = true) →
      digitsVal ds.flatten * suffixMult osfx < 2 ^ 53 →
      parse_amount_chars (joinChar ',' ds ++ osfx.toList) =
        .ok (some (digitsVal ds.flatten * suffixMult osfx))) ∧
    (∀ (ip fp : List Char) (osfx : Option Char),
      (∀ c ∈ ip, pyIsDigit c = true) → (∀ c ∈ fp, pyIsDigit c = true) →
      (ip ≠ [] ∨ fp ≠ []) →
      (osfx = none ∨ osfx = some 'm' ∨ osfx = some 'k' ∨ osfx = some 'M' ∨ osfx = some 'K') →
      digitsVal fp % 5 ^ fp.length = 0 →
      digitsVal (ip ++ fp) * suffixMult osfx < 2 ^ 53 →
      parse_amount_chars (ip ++ '.' :: fp ++ osfx.toList) =
        .ok (some (decTrunc (digitsVal (ip ++ fp)) fp.length (suffixMult osfx)))) ∧
    parse_amount "15,5k" = .ok (some 15500) ∧
    parse_amount "2,800,000" = .ok (some 2800000) ∧
    parse_amount "2.8M" = .ok (some 2800000) :=
  ⟨fun a b sfx ha hb hda hdb hs _ _ => parse_amount_viet_core a b sfx ha hb hda hdb hs,
   fun ds osfx hne hwf hs hlen _ => parse_amount_thousands_core ds osfx hne hwf hs hlen,
   fun ip fp osfx hip hfp hne hs _ _ => parse_amount_dot_core ip fp osfx hip hfp hne hs,
   rfl, rfl, rfl⟩

/-- Witness for C1 amended: the general clauses evaluated at in-guard tokens
(`15,5k`, `2,800,000`, `2.5M` — all dyadic and far below `2 ^ 53`). -/
theorem parse_amount_grammar_amended_witness :
    parse_amount_chars ("15".data ++ ',' :: "5".data ++ ['k']) = .ok (some 15500) ∧
    parse_amount_chars (joinChar ',' ["2".data, "800".data, "000".data] ++
      (none : Option Char).toList) = .ok (some 2800000) ∧
    parse_amount_chars ("2".data ++ '.' :: "5".data ++ ((some 'M' : Option Char)).toList) =
      .ok (some 2500000) := by
  refine ⟨?_, ?_, ?_⟩
  · have h := parse_amount_grammar_amended.1 "15".data "5".data 'k'
      (by decide) (by decide) (by decide) (by decide) (by decide) (by decide) (by decide)
    exact h.trans rfl
  · have h := parse_amount_grammar_amended.2.1 ["2".data, "800".data, "000".data] none
      (by decide) (by decide) (by decide) (by decide) (by decide)
    exact h.trans rfl
  · have h := parse_amount_grammar_amended.2.2.1 "2".data "5".data (some 'M')
      (by decide) (by decide) (by decide) (by decide) (by decide) (by decide)
    exact h.trans rfl

theorem toLower_digit (c : Char) (h : pyIsDigit c = true) : c.toLower = c := by
  simp only [pyIsDigit, Bool.and_eq_true, decide_eq_true_eq] at h
  obtain ⟨h1, h2⟩ := h
  have h9 : c.toNat ≤ 57 := by
    have h' := h2
    rw [Char.le_def] at h'
    exact h'
  unfold Char.toLower
  rw [if_neg]
  intro hc
  omega

theorem pyLower_id (l : List Char) (h : ∀ c ∈ l, Char.toLower c = c) : pyLower l = l := by
  induction l with
  | nil => rfl
  | cons c t ih =>
    rw [pyLower, List.map_cons, h c (by simp)]
    rw [show List.map Char.toLower t = pyLower t from rfl, ih (fun x hx => h x (by simp [hx]))]

theorem pyStrip_id (l : List Char) (h : ∀ c ∈ l, pyIsWS c = false) : pyStrip l = l := by
  rw [pyStrip, dropWhile_all_not _ _ h,
    dropWhile_all_not _ _ (fun c hc => h c (List.mem_reverse.mp hc)), List.reverse_reverse]

/-- When no token parses as a month, the scan consumes nothing. -/
theorem extract_month_tokens_none (now : ℤ × ℕ) :
    ∀ ws : List (List Char), (∀ w ∈ ws, parse_month ⟨w⟩ now = none) →
      extract_month_tokens now ws = none := by
  intro ws
  induction ws with
  | nil => intro _; rfl
  | cons w t ih =>
    intro h
    rw [extract_month_tokens, h w (by simp), ih (fun v hv => h v (by simp [hv]))]

/-- `parse_month` on a month-name alias: the current year if the month has
already occurred this year, else the previous year. -/
theorem parse_month_name_core (s : String) (now : ℤ × ℕ) (m : ℕ)
    (hlook : MONTH_NAMES.lookup (⟨pyStrip (pyLower s.data)⟩ : String) = some m) :
    parse_month s now = some ((if m ≤ now.2 then now.1 else now.1 - 1), m) := by
  have hmem := lookup_mem_keys _ _ _ hlook
  have hkeys : ∀ k ∈ MONTH_NAMES.map Prod.fst, yyyymmMatch k.data = none := by decide
  have hyy : yyyymmMatch (pyStrip (pyLower s.data)) = none := by
    have h := hkeys _ hmem
    simpa using h
  simp only [parse_month, hyy, hlook]

/-- `parse_month` on a 4-digit-dash-digits token. -/
theorem parse_month_yyyymm_core (a b : List Char) (now : ℤ × ℕ)
    (hda : ∀ c ∈ a, pyIsDigit c = true) (hdb : ∀ c ∈ b, pyIsDigit c = true)
    (h4 : a.length = 4) (h12 : b.length = 1 ∨ b.length = 2) :
    parse_month ⟨a ++ '-' :: b⟩ now = some ((digitsVal a : ℤ), digitsVal b) := by
  have hlow : pyLower (a ++ '-' :: b) = a ++ '-' :: b := by
    apply pyLower_id
    intro c hc
    rcases List.mem_append.mp hc with hc | hc
    · exact toLower_digit c (hda c hc)
    · rcases List.mem_cons.mp hc with rfl | hc
      · decide
      · exact toLower_digit c (hdb c hc)
  have hstrip : pyStrip (a ++ '-' :: b) = a ++ '-' :: b := by
    apply pyStrip_id
    intro c hc
    rcases List.mem_append.mp hc with hc | hc
    · exact digit_not_ws c (hda c hc)
    · rcases List.mem_cons.mp hc with rfl | hc
      · decide
      · exact digit_not_ws c (hdb c hc)
  have hyy : yyyymmMatch (a ++ '-' :: b) = some ((digitsVal a : ℤ), digitsVal b) := by
    rw [yyyymmMatch, span_all_stop pyIsDigit a '-' b hda (by decide)]
    simp only []
    rw [if_pos h4]
    rw [span_all pyIsDigit b hdb]
    simp only []
    rcases h12 with h | h <;> simp [h]
  simp only [parse_month]
  rw [hlow, hstrip, hyy]

/-- The first token `parse_month` accepts is consumed; tokens before it are
kept, in order, as are the tokens after it. -/
theorem extract_month_tokens_first (now : ℤ × ℕ) :
    ∀ (pre : List (List Char)) (w : List Char) (post : List (List Char)) (y : ℤ) (m : ℕ),
      (∀ v ∈ pre, parse_month ⟨v⟩ now = none) → parse_month ⟨w⟩ now = some (y, m) →
      extract_month_tokens now (pre ++ w :: post) = some (pre ++ post, y, m) := by
  intro pre
  induction pre with
  | nil =>
    intro w post y m _ hw
    rw [List.nil_append]
    simp only [extract_month_tokens]
    rw [hw]
    simp only [List.nil_append]
  | cons v vs ih =>
    intro w post y m hpre hw
    rw [List.cons_append]
    simp only [extract_month_tokens]
    rw [hpre v (by simp), ih w post y m (fun u hu => hpre u (by simp [hu])) hw]
    simp only [List.cons_append]

/-- C4 counterexample: `3/2024` is an `M/YYYY` token by the claim's grammar,
but `parse_month` has no slash pattern: the extractor consumes nothing,
returns the current (year, month) and `is_backdated = false`, not
(2024, March, backdated). -/
theorem month_slash_counterexample :
    mSlashYyyyMatch "3/2024".data = true ∧
    parse_month "3/2024" (2025, 3) = none ∧
    extract_month_from_text "3/2024 gas" (2025, 3) = ("3/2024 gas", 2025, 3, false) ∧
    ("3/2024 gas", (2025 : ℤ), 3, false) ≠ ("gas", (2024 : ℤ), 3, true) := by
  refine ⟨rfl, rfl, rfl, by decide⟩

/-- C4 amended: the extractor consumes the *first* token `parse_month`
accepts — a `YYYY-M[M]` form or a known month-name alias; the `M/YYYY` form
is *not* recognised — leaving all other tokens in order; a bare month name
resolves to the current year iff the month is ≤ the current month, else the
previous year; `is_backdated` is exactly "resolved (year, month) differs
from now"; with no month token the text and the current (year, month) come
back unchanged with `is_backdated = false`. -/
theorem month_extractor_amended :
    (∀ (now : ℤ × ℕ) (text : String),
      (∀ w ∈ pySplitWs text.data, parse_month ⟨w⟩ now = none) →
      extract_month_from_text text now = (text, now.1, now.2, false)) ∧
    (∀ (now : ℤ × ℕ) (pre : List (List Char)) (w : List Char) (post : List (List Char))
      (y : ℤ) (m : ℕ),
      (∀ v ∈ pre, parse_month ⟨v⟩ now = none) → parse_month ⟨w⟩ now = some (y, m) →
      extract_month_tokens now (pre ++ w :: post) = some (pre ++ post, y, m)) ∧
    (∀ (now : ℤ × ℕ) (a b : List Char),
      (∀ c ∈ a, pyIsDigit c = true) → (∀ c ∈ b, pyIsDigit c = true) →
      a.length = 4 → (b.length = 1 ∨ b.length = 2) →
      parse_month ⟨a ++ '-' :: b⟩ now = some ((digitsVal a : ℤ), digitsVal b)) ∧
    (∀ (now : ℤ × ℕ) (s : String) (m : ℕ),
      MONTH_NAMES.lookup (⟨pyStrip (pyLower s.data)⟩ : String) = some m →
      parse_month s now = some ((if m ≤ now.2 then now.1 else now.1 - 1), m)) ∧
    (∀ (now : ℤ × ℕ) (text : String),
      (extract_month_from_text text now).2.2.2 =
        !(decide ((extract_month_from_text text now).2.1 = now.1) &&
          decide ((extract_month_from_text text now).2.2.1 = now.2))) ∧
    extract_month_from_text "dec 150k gas" (2025, 3) = ("150k gas", 2024, 12, true) := by
  refine ⟨?_, ?_, ?_, ?_, ?_, rfl⟩
  · intro now text h
    simp only [extract_month_from_text]
    rw [extract_month_tokens_none now _ h]
  · intro now pre w post y m hpre hw
    exact extract_month_tokens_first now pre w post y m hpre hw
  · intro now a b hda hdb h4 h12
    exact parse_month_yyyymm_core a b now hda hdb h4 h12
  · intro now s m hlook
    exact parse_month_name_core s now m hlook
  · intro now text
    cases h : extract_month_tokens now (pySplitWs text.data) with
    | none => simp [extract_month_from_text, h]
    | some r => simp [extract_month_from_text, h]

/-- Witness for C4 amended at the spec's example inputs. -/
theorem month_extractor_amended_witness :
    extract_month_from_text "150k gas" (2025, 3) = ("150k gas", 2025, 3, false) ∧
    extract_month_tokens (2025, 3) (["150k".data] ++ "dec".data :: ["gas".data]) =
      some (["150k".data] ++ ["gas".data], 2024, 12) ∧
    parse_month ⟨"2024".data ++ '-' :: "12".data⟩ (2025, 3) = some (2024, 12) ∧
    parse_month "dec" (2025, 3) = some (2024, 12) :=
  ⟨month_extractor_amended.1 (2025, 3) "150k gas" (by decide),
   month_extractor_amended.2.1 (2025, 3) ["150k".data] "dec".data ["gas".data] 2024 12
     (by decide) (by decide),
   (month_extractor_amended.2.2.1 (2025, 3) "2024".data "12".data
     (by decide) (by decide) (by decide) (by decide)).trans rfl,
   (month_extractor_amended.2.2.2.1 (2025, 3) "dec" 12 (by decide)).trans rfl⟩

/-- C5 counterexample: `fee.` in category `Other`. The regex `\b\w+\b` words
of `fee.` are `[fee]`, so the code classifies the transaction as Income;
the claim's whitespace words are `[fee.]`, which matches no income keyword
exactly, giving Expense. -/
theorem income_word_boundary_counterexample :
    resolve_type_category "fee." "Other" = ("Income", "Other") ∧
    resolve_type_category_specC5 "fee." "Other" = ("Expense", "Other") ∧
    ("Income", "Other") ≠ (("Expense" : String), "Other") :=
  ⟨rfl, rfl, by decide⟩

/-- C5 amended: resolution is — repayment phrasing overrides everything to
(`Income`, `Loan & Debt`); otherwise the type is `Income` iff the category
is `Income` or some *regex word* (`\b\w+\b` token, i.e. maximal run of word
characters) of the lower-cased description equals an income keyword, and
the category passes through unchanged. -/
theorem resolve_type_category_amended :
    (∀ (d c : String), resolve_type_category d c = resolve_type_category_amendC5 d c) ∧
    resolve_type_category "fee." "Other" = ("Income", "Other") ∧
    resolve_type_category "jacob salary" "Other" = ("Income", "Other") ∧
    resolve_type_category "pay back anna" "Shopping" = ("Income", "Loan & Debt") ∧
    resolve_type_category "lunch" "Food" = ("Expense", "Food") := by
  refine ⟨?_, rfl, rfl, rfl, rfl⟩
  intro d c
  have hinc : is_income d c = is_income_wordsC5 d c := by
    unfold is_income is_income_wordsC5
    by_cases h : c = "Income" <;> simp [h]
  unfold resolve_type_category resolve_type_category_amendC5
  rw [hinc]

/-- If no keyword of any listed category occurs in the text, the scan
returns `Other`. -/
theorem detectGo_none (tl : List Char) :
    ∀ (l : List (String × List String)),
      (∀ p ∈ l, ∀ k ∈ p.2, containsSub k.data tl = false) →
      detectCategoryGo tl l = "Other" := by
  intro l
  induction l with
  | nil => intro _; rfl
  | cons p rest ih =>
    intro h
    obtain ⟨c, kws⟩ := p
    simp only [detectCategoryGo]
    have hall : kws.any (fun k => containsSub k.data tl) = false := by
      rw [List.any_eq_false]
      intro k hk
      simp [h (c, kws) (by simp) k hk]
    rw [hall, if_neg (by simp : ¬(false = true))]
    exact ih (fun p hp => h p (by simp [hp]))

/-- The first category with a matching keyword wins the scan. -/
theorem detectGo_first (tl : List Char) :
    ∀ (pre : List (String × List String)) (c : String) (kws : List String)
      (post : List (String × List String)),
      (∀ p ∈ pre, ∀ k ∈ p.2, containsSub k.data tl = false) →
      kws.any (fun k => containsSub k.data tl) = true →
      detectCategoryGo tl (pre ++ (c, kws) :: post) = c := by
  intro pre
  induction pre with
  | nil =>
    intro c kws post _ hk
    simp only [List.nil_append, detectCategoryGo]
    simp [hk]
  | cons p rest ih =>
    intro c kws post hpre hk
    obtain ⟨c0, kws0⟩ := p
    simp only [List.cons_append, detectCategoryGo]
    have hall : kws0.any (fun k => containsSub k.data tl) = false := by
      rw [List.any_eq_false]
      intro k hkk
      simp [hpre (c0, kws0) (by simp) k hkk]
    rw [hall, if_neg (by simp : ¬(false = true))]
    exact ih c kws post (fun p hp => hpre p (by simp [hp])) hk

/-- C6: classification is first-hit in declaration order over the taxonomy:
if no keyword of any category is a substring of the lower-cased text the
result is `Other`; otherwise the first category owning a matching keyword
wins.  Order-stability instance: `ticket` is a keyword of both `Transport`
(declared 3rd) and `Entertainment` (declared 7th), and both `ticket` and
`TICKET` classify as `Transport`. -/
theorem category_first_hit :
    (∀ (text : String),
      (∀ p ∈ CATEGORIES, ∀ k ∈ p.2, containsSub k.data (pyLower text.data) = false) →
      detect_category text = "Other") ∧
    (∀ (text : String) (pre : List (String × List String)) (c : String)
      (kws : List String) (post : List (String × List String)),
      CATEGORIES = pre ++ (c, kws) :: post →
      (∀ p ∈ pre, ∀ k ∈ p.2, containsSub k.data (pyLower text.data) = false) →
      kws.any (fun k => containsSub k.data (pyLower text.data)) = true →
      detect_category text = c) ∧
    (CATEGORIES.getD 2 ("", [])).1 = "Transport" ∧
    "ticket" ∈ (CATEGORIES.getD 2 ("", [])).2 ∧
    (CATEGORIES.getD 6 ("", [])).1 = "Entertainment" ∧
    "ticket" ∈ (CATEGORIES.getD 6 ("", [])).2 ∧
    detect_category "ticket" = "Transport" ∧
    detect_category "TICKET" = "Transport" := by
  refine ⟨?_, ?_, rfl, by decide, rfl, by decide, rfl, rfl⟩
  · intro text h
    exact detectGo_none (pyLower text.data) CATEGORIES h
  · intro text pre c kws post heq hpre hk
    unfold detect_category
    rw [heq]
    exact detectGo_first (pyLower text.data) pre c kws post hpre hk

set_option maxRecDepth 100000 in
/-- Witness for C6 at a non-matching and a matching description. -/
theorem category_first_hit_witness :
    detect_category "zzzz" = "Other" ∧ detect_category "ticket" = "Transport" :=
  ⟨category_first_hit.1 "zzzz" (by decide),
   category_first_hit.2.1 "ticket" (CATEGORIES.take 2) "Transport"
     ((CATEGORIES.getD 2 ("", [])).2) (CATEGORIES.drop 3) (by rfl) (by decide) (by decide)⟩

theorem containsSub_single (x : Char) :
    ∀ l : List Char, containsSub [x] l = decide (x ∈ l) := by
  intro l
  induction l with
  | nil => simp [containsSub]
  | cons c t ih =>
    simp only [containsSub]
    have hs : strStarts [x] (c :: t) = decide (c = x) := by
      by_cases h : c = x <;> simp [strStarts, h]
    rw [hs, ih]
    by_cases h1 : c = x
    · subst h1; simp
    · have h1' : ¬ x = c := fun he => h1 he.symm
      simp [h1, h1']

theorem strStarts_last_false (c : Char) (t : List Char) (h : pyIsDigit c = true) :
    strStarts "last".data (c :: t) = false := by
  cases hs : strStarts "last".data (c :: t) with
  | false => rfl
  | true =>
    exfalso
    simp only [strStarts] at hs
    rw [decide_eq_true_eq] at hs
    rw [show (c :: t).take ("last".data).length = c :: t.take 3 from rfl] at hs
    injection hs with h1 _
    rw [h1] at h
    exact absurd h (by decide)

theorem render_head_digit (p : TPart) (h : p.wf) :
    ∃ c t, p.render = c :: t ∧ pyIsDigit c = true := by
  cases p with
  | num d =>
    have hd : pyIsDigitStr d = true := h
    simp only [pyIsDigitStr, Bool.and_eq_true, List.all_eq_true] at hd
    cases d with
    | nil => simp at hd
    | cons c t => exact ⟨c, t, rfl, hd.2 c (by simp)⟩
  | rng a b =>
    have ha : pyIsDigitStr a = true := h.1
    simp only [pyIsDigitStr, Bool.and_eq_true, List.all_eq_true] at ha
    cases a with
    | nil => simp at ha
    | cons c t =>
      exact ⟨c, t ++ '-' :: b, by simp [TPart.render], ha.2 c (by simp)⟩

theorem render_chars (p : TPart) (h : p.wf) :
    ∀ c ∈ p.render, pyIsDigit c = true ∨ c = '-' := by
  cases p with
  | num d =>
    intro c hc
    have hd : pyIsDigitStr d = true := h
    simp only [pyIsDigitStr, Bool.and_eq_true, List.all_eq_true] at hd
    exact Or.inl (hd.2 c hc)
  | rng a b =>
    intro c hc
    obtain ⟨ha, hb⟩ := h
    simp only [pyIsDigitStr, Bool.and_eq_true, List.all_eq_true] at ha hb
    simp only [TPart.render, List.mem_append, List.mem_cons] at hc
    rcases hc with hca | rfl | hcb
    · exact Or.inl (ha.2 c hca)
    · exact Or.inr rfl
    · exact Or.inl (hb.2 c hcb)

theorem foldl_partTargets (parts : List (List Char)) :
    ∀ acc, parts.foldl (fun acc part => acc ++ partTargets part) acc =
      acc ++ (parts.map partTargets).flatten := by
  induction parts with
  | nil => intro acc; simp
  | cons p t ih =>
    intro acc
    simp only [List.foldl_cons, List.map_cons, List.flatten_cons, ih, List.append_assoc]

theorem partTargets_render (p : TPart) (h : p.wf) :
    partTargets p.render = p.sem := by
  cases p with
  | num d =>
    have hd : pyIsDigitStr d = true := h
    have hnom : '-' ∉ d := by
      intro hm
      simp only [pyIsDigitStr, Bool.and_eq_true, List.all_eq_true] at hd
      exact absurd (hd.2 '-' hm) (by decide)
    simp only [TPart.render, TPart.sem, partTargets]
    rw [containsSub_single, decide_eq_false hnom]
    simp only [Bool.false_and]
    rw [if_neg (by simp : ¬(false = true))]
    simp [hd]
  | rng a b =>
    obtain ⟨ha, hb⟩ := h
    have hna : '-' ∉ a := by
      intro hm
      simp only [pyIsDigitStr, Bool.and_eq_true, List.all_eq_true] at ha
      exact absurd (ha.2 '-' hm) (by decide)
    obtain ⟨c0, t0, hrend, hdig⟩ : ∃ c0 t0, a = c0 :: t0 ∧ pyIsDigit c0 = true := by
      have ha' := ha
      simp only [pyIsDigitStr, Bool.and_eq_true, List.all_eq_true] at ha'
      cases a with
      | nil => simp at ha'
      | cons c t => exact ⟨c, t, rfl, ha'.2 c (by simp)⟩
    simp only [TPart.render, TPart.sem, partTargets]
    have hcon : containsSub ['-'] (a ++ '-' :: b) = true := by
      rw [containsSub_single]
      simp
    have hst : strStarts ['-'] (a ++ '-' :: b) = false := by
      rw [hrend]
      simp only [List.cons_append]
      cases hss : strStarts ['-'] (c0 :: (t0 ++ '-' :: b)) with
      | false => rfl
      | true =>
        exfalso
        simp only [strStarts] at hss
        rw [decide_eq_true_eq] at hss
        rw [show (c0 :: (t0 ++ '-' :: b)).take (['-'] : List Char).length = [c0] from rfl] at hss
        injection hss with h1 _
        rw [h1] at hdig
        exact absurd hdig (by decide)
    rw [hcon, hst]
    simp only [Bool.not_false, Bool.and_self]
    simp only [if_true]
    have hsplit : splitOnChar '-' (a ++ '-' :: b) = [a, b] := by
      rw [show a ++ '-' :: b = joinChar '-' [a, b] by simp [joinChar]]
      refine splitOnChar_joinChar '-' [a, b] (by simp) ?_
      intro q hq c hc
      simp only [List.mem_cons, List.not_mem_nil, or_false] at hq
      rcases hq with rfl | rfl
      · intro he
        rw [he] at hc
        exact hna hc
      · intro he
        rw [he] at hc
        simp only [pyIsDigitStr, Bool.and_eq_true, List.all_eq_true] at hb
        exact absurd (hb.2 '-' hc) (by decide)
    rw [hsplit]
    simp only []
    simp [ha, hb]

/-- A comma-join of well-formed pieces is parsed into the descending,
deduplicated union of the pieces' targets. -/
theorem parse_delete_targets_joined (ps : List TPart) (hne : ps ≠ [])
    (hwf : ∀ p ∈ ps, p.wf) :
    parse_delete_targets ⟨joinChar ',' (ps.map TPart.render)⟩ =
      DelTargets.nums (sortDescNat ((ps.map TPart.sem).flatten).dedup) := by
  obtain ⟨p0, rest, rfl⟩ : ∃ p0 rest, ps = p0 :: rest := by
    cases ps with
    | nil => exact absurd rfl hne
    | cons a t => exact ⟨a, t, rfl⟩
  obtain ⟨c0, t0, hrend, hdig⟩ := render_head_digit p0 (hwf p0 (by simp))
  obtain ⟨s, hs⟩ : ∃ s, joinChar ',' ((p0 :: rest).map TPart.render) = p0.render ++ s := by
    cases rest with
    | nil => exact ⟨[], by simp [joinChar_singleton]⟩
    | cons q t =>
      refine ⟨',' :: joinChar ',' (TPart.render q :: t.map TPart.render), ?_⟩
      rw [List.map_cons, List.map_cons]
      exact joinChar_cons_cons ',' _ _ _
  have hjoin0 : joinChar ',' ((p0 :: rest).map TPart.render) = c0 :: (t0 ++ s) := by
    rw [hs, hrend]
    simp
  have hchars : ∀ c ∈ joinChar ',' ((p0 :: rest).map TPart.render),
      pyIsDigit c = true ∨ c = '-' ∨ c = ',' := by
    intro c hc
    rcases mem_joinChar ',' _ c hc with ⟨d, hd, hcd⟩ | rfl
    · obtain ⟨p, hp, rfl⟩ := List.mem_map.mp hd
      rcases render_chars p (hwf p hp) c hcd with h | h
      · exact Or.inl h
      · exact Or.inr (Or.inl h)
    · exact Or.inr (Or.inr rfl)
  have hnosp : ∀ c ∈ joinChar ',' ((p0 :: rest).map TPart.render), decide (c ≠ ' ') = true := by
    intro c hc
    rcases hchars c hc with h | h | h
    · simp only [decide_eq_true_eq]
      intro he
      rw [he] at h
      exact absurd h (by decide)
    · simp [h]
    · simp [h]
  have hnocomma : ∀ q ∈ (p0 :: rest).map TPart.render, ∀ c ∈ q, c ≠ ',' := by
    intro q hq c hc
    obtain ⟨p, hp, rfl⟩ := List.mem_map.mp hq
    rcases render_chars p (hwf p hp) c hc with h | h
    · intro he
      rw [he] at h
      exact absurd h (by decide)
    · simp [h]
  simp only [parse_delete_targets]
  rw [hjoin0, strStarts_last_false c0 (t0 ++ s) hdig]
  rw [if_neg (by simp : ¬(false = true))]
  rw [← hjoin0]
  rw [List.filter_eq_self.mpr hnosp]
  rw [splitOnChar_joinChar ',' _ (by simp) hnocomma]
  rw [foldl_partTargets, List.nil_append]
  have hmaps : (((p0 :: rest).map TPart.render).map partTargets) = (p0 :: rest).map TPart.sem := by
    rw [List.map_map]
    exact List.map_congr_left (fun p hp => partTargets_render p (hwf p hp))
  rw [hmaps]

theorem pySplitWs_two (a d : List Char) (ha : ∀ c ∈ a, pyIsWS c = false) (ha2 : a ≠ [])
    (hd : ∀ c ∈ d, pyIsWS c = false) (hd2 : d ≠ []) :
    pySplitWs (a ++ ' ' :: d) = [a, d] := by
  rw [pySplitWs, splitWhen_append_sep pyIsWS a ' ' d ha (by decide),
    splitWhen_all_not pyIsWS d hd]
  simp [ha2, hd2]

theorem pySplitWs_three (a d e : List Char) (ha : ∀ c ∈ a, pyIsWS c = false) (ha2 : a ≠ [])
    (hd : ∀ c ∈ d, pyIsWS c = false) (hd2 : d ≠ [])
    (he : ∀ c ∈ e, pyIsWS c = false) (he2 : e ≠ []) :
    pySplitWs (a ++ ' ' :: (d ++ ' ' :: e)) = [a, d, e] := by
  rw [pySplitWs, splitWhen_append_sep pyIsWS a ' ' _ ha (by decide),
    splitWhen_append_sep pyIsWS d ' ' e hd (by decide),
    splitWhen_all_not pyIsWS e he]
  simp [ha2, hd2, he2]

/-- C7 counterexample: `delete` targets may be comma lists and ranges, but
the `paid` handler rejects a comma list and the `edit` handler rejects a
dash range — only a bare integer is accepted there. -/
theorem target_grammar_counterexample :
    parse_delete_targets "1,2" = DelTargets.nums [2, 1] ∧
    paid_target "paid 1,2" = none ∧
    edit_target "edit 1-3 100k" = none :=
  ⟨rfl, rfl, rfl⟩

/-- C7 amended: only the `delete` path accepts the full grammar — any
non-empty comma-join of well-formed integers and dash ranges parses to the
descending deduplicated union of their targets, and `last` may carry a
digit count.  The `paid` handler accepts exactly a bare integer second
token (anything non-digit is rejected), as does the `edit` handler for its
target token. -/
theorem target_grammar_amended :
    (∀ (ps : List TPart), ps ≠ [] → (∀ p ∈ ps, p.wf) →
      parse_delete_targets ⟨joinChar ',' (ps.map TPart.render)⟩ =
        DelTargets.nums (sortDescNat ((ps.map TPart.sem).flatten).dedup)) ∧
    parse_delete_targets "last" = DelTargets.last none ∧
    (∀ d : List Char, pyIsDigitStr d = true →
      parse_delete_targets ⟨"last ".data ++ d⟩ = DelTargets.last (some (digitsVal d))) ∧
    (∀ (text : String) (p : List Char),
      (pySplitWs (pyLower text.data)).get? 1 = some p → pyIsDigitStr p = false →
      paid_target text = none) ∧
    (∀ d : List Char, pyIsDigitStr d = true →
      paid_target ⟨"paid ".data ++ d⟩ = some ((digitsVal d : ℤ) - 1)) ∧
    (∀ (text : String) (tgt amt : List Char) (more : List (List Char)),
      pySplitWs text.data = "edit".data :: tgt :: amt :: more → pyIsDigitStr tgt = false →
      edit_target text = none) ∧
    (∀ d amt : List Char, pyIsDigitStr d = true → (∀ c ∈ amt, pyIsWS c = false) → amt ≠ [] →
      edit_target ⟨"edit ".data ++ (d ++ ' ' :: amt)⟩ =
        some ((digitsVal d : ℤ) - 1, (⟨amt⟩ : String))) := by
  refine ⟨parse_delete_targets_joined, rfl, ?_, ?_, ?_, ?_, ?_⟩
  · intro d h
    have hd2 : d ≠ [] := by
      simp only [pyIsDigitStr, Bool.and_eq_true] at h
      simpa using h.1
    have hdws : ∀ c ∈ d, pyIsWS c = false := by
      intro c hc
      simp only [pyIsDigitStr, Bool.and_eq_true, List.all_eq_true] at h
      exact digit_not_ws c (h.2 c hc)
    simp only [parse_delete_targets]
    rw [show ("last ".data ++ d : List Char) = "last".data ++ ' ' :: d from rfl]
    rw [show strStarts "last".data ("last".data ++ ' ' :: d) = true from rfl]
    rw [if_pos rfl]
    rw [pySplitWs_two "last".data d (by decide) (by decide) hdws hd2]
    rw [show ([("last".data : List Char), d]).get? 1 = some d from rfl]
    simp [h]
  · intro text p h1 h2
    simp only [paid_target]
    rw [h1]
    simp [h2]
  · intro d h
    have hd2 : d ≠ [] := by
      simp only [pyIsDigitStr, Bool.and_eq_true] at h
      simpa using h.1
    have hdws : ∀ c ∈ d, pyIsWS c = false := by
      intro c hc
      simp only [pyIsDigitStr, Bool.and_eq_true, List.all_eq_true] at h
      exact digit_not_ws c (h.2 c hc)
    have hlow : pyLower ("paid ".data ++ d) = "paid".data ++ ' ' :: d := by
      have hdl : pyLower d = d := pyLower_id d (fun c hc => toLower_digit c (by
        simp only [pyIsDigitStr, Bool.and_eq_true, List.all_eq_true] at h
        exact h.2 c hc))
      simp only [pyLower, List.map_append]
      rw [show List.map Char.toLower "paid ".data = "paid ".data from rfl]
      rw [show (List.map Char.toLower d) = pyLower d from rfl, hdl]
      rfl
    simp only [paid_target]
    rw [hlow, pySplitWs_two "paid".data d (by decide) (by decide) hdws hd2]
    rw [show ([("paid".data : List Char), d]).get? 1 = some d from rfl]
    simp [h]
  · intro text tgt amt more hsplit h2
    simp only [edit_target]
    rw [hsplit]
    rw [if_neg (show ¬ (("edit".data :: tgt :: amt :: more).length < 3) by
      simp only [List.length_cons]
      omega)]
    rw [show (("edit".data :: tgt :: amt :: more).get? 1) = some tgt from rfl,
      show (("edit".data :: tgt :: amt :: more).get? 2) = some amt from rfl]
    simp [h2]
  · intro d amt h hamtws hamt2
    have hd2 : d ≠ [] := by
      simp only [pyIsDigitStr, Bool.and_eq_true] at h
      simpa using h.1
    have hdws : ∀ c ∈ d, pyIsWS c = false := by
      intro c hc
      simp only [pyIsDigitStr, Bool.and_eq_true, List.all_eq_true] at h
      exact digit_not_ws c (h.2 c hc)
    simp only [edit_target]
    rw [show (("edit ".data ++ (d ++ ' ' :: amt)) : List Char) =
      "edit".data ++ ' ' :: (d ++ ' ' :: amt) from rfl]
    rw [pySplitWs_three "edit".data d amt (by decide) (by decide) hdws hd2 hamtws hamt2]
    rw [if_neg (show ¬ (([("edit".data : List Char), d, amt]).length < 3) by simp)]
    rw [show (([("edit".data : List Char), d, amt]).get? 1) = some d from rfl,
      show (([("edit".data : List Char), d, amt]).get? 2) = some amt from rfl]
    simp [h]

/-- Witness for C7 amended at concrete targets. -/
theorem target_grammar_amended_witness :
    parse_delete_targets
        ⟨joinChar ',' ([TPart.num "1".data, TPart.rng "3".data "5".data].map TPart.render)⟩ =
      DelTargets.nums [5, 4, 3, 1] ∧
    parse_delete_targets ⟨"last ".data ++ "3".data⟩ = DelTargets.last (some 3) ∧
    paid_target "paid 2,3" = none ∧
    paid_target ⟨"paid ".data ++ "2".data⟩ = some 1 ∧
    edit_target "edit 2-4 99" = none ∧
    edit_target ⟨"edit ".data ++ ("2".data ++ ' ' :: "100k".data)⟩ = some (1, "100k") :=
  ⟨(target_grammar_amended.1 [TPart.num "1".data, TPart.rng "3".data "5".data]
      (by simp)
      (by
        intro p hp
        simp only [List.mem_cons, List.not_mem_nil, or_false] at hp
        rcases hp with rfl | rfl
        · exact (by decide : pyIsDigitStr "1".data = true)
        · exact ⟨(by decide : pyIsDigitStr "3".data = true),
            (by decide : pyIsDigitStr "5".data = true)⟩)).trans (by rfl),
   (target_grammar_amended.2.2.1 "3".data (by decide)).trans (by rfl),
   target_grammar_amended.2.2.2.1 "paid 2,3" "2,3".data (by rfl) (by rfl),
   (target_grammar_amended.2.2.2.2.1 "2".data (by decide)).trans (by rfl),
   target_grammar_amended.2.2.2.2.2.1 "edit 2-4 99" "2-4".data "99".data [] (by rfl) (by rfl),
   (target_grammar_amended.2.2.2.2.2.2 "2".data "100k".data (by decide) (by decide)
      (by decide)).trans (by rfl)⟩

/-- Witness for C9 amended: a digitless token is a no-match, and a leading
zero-valued token survives the extraction loop unconsumed. -/
theorem parse_amount_zero_absent_witness :
    parse_amount "xyz" = .ok none ∧
    extract_amount_loop none [] ["0".data, "lunch".data] =
      .ok (none, ["0".data, "lunch".data]) :=
  ⟨parse_amount_no_match_and_zero_absent.1 "xyz" (by decide),
   parse_amount_no_match_and_zero_absent.2.1 ["0".data, "lunch".data] (by
     intro w hw
     simp only [List.mem_cons, List.not_mem_nil, or_false] at hw
     rcases hw with rfl | rfl
     · exact Or.inr rfl
     · exact Or.inl rfl)⟩
